import Mathlib

/-!
Verification of the filtering, ranked-search and view-state engine of the
Research Elements Explorer (`src/streamlit_app.py`).

The development shallow-embeds the program's core over an explicit value
type: pandas cell values become `Value` (integers, strings, missing);
dataframes become `DataFrame` (column names plus rows of values);
pandas column dtype tests are derived from the values a column holds;
fallible operations (which raise exceptions in Python) return `Option`
or `Except`.  Every definition follows the corresponding source line of
`streamlit_app.py`, which is cited in its doc comment.
-/

namespace Explorer

/-- A cell value of the loaded table: an integer, a string, or missing
(pandas `NaN`).  The element sheet's numeric cells are whole numbers, so
integers suffice; fractional floats are outside the modelled fragment. -/
inductive Value where
  | vInt (n : Int)
  | vStr (s : String)
  | vNull
deriving DecidableEq, Repr

/-- Decimal digit character for `n < 10`. -/
def digitChar (n : Nat) : Char := Char.ofNat (48 + n)

/-- Decimal digits of `n`, most significant first, with explicit fuel so
that the definition is structural and evaluates by `decide`.  Any `fuel > n`
is sufficient. -/
def natToChars (fuel n : Nat) : List Char :=
  match fuel with
  | 0 => []
  | fuel + 1 => if n < 10 then [digitChar n] else natToChars fuel (n / 10) ++ [digitChar (n % 10)]

/-- Decimal rendering of an integer; models Python `str` on `int`. -/
def intToStr (m : Int) : String :=
  if m < 0 then ⟨'-' :: natToChars (m.natAbs + 1) m.natAbs⟩ else ⟨natToChars (m.natAbs + 1) m.natAbs⟩

/-- String form of a cell value; models pandas `.astype(str)` / Python
`str` on a cell: integers render in decimal and a missing value renders
as `"nan"`. -/
def pyStr : Value → String
  | .vInt m => intToStr m
  | .vStr s => s
  | .vNull => "nan"

/-- Lowercasing; models Python `str.lower` on the ASCII fragment the
application's data uses (`Char.toLower` lowers only ASCII letters). -/
def lowerStr (s : String) : String := ⟨s.data.map Char.toLower⟩

/-- Whitespace accepted (and stripped) by Python `int()` and `str.strip`:
space, tab, newline, carriage return, vertical tab, form feed (stated on
code points). -/
def isPySpace (c : Char) : Bool :=
  c.toNat == 32 || c.toNat == 9 || c.toNat == 10 || c.toNat == 13 || c.toNat == 11 || c.toNat == 12

/-- Strip leading and trailing whitespace from a character list. -/
def trimChars (l : List Char) : List Char :=
  ((l.dropWhile isPySpace).reverse.dropWhile isPySpace).reverse

/-- Decimal digit test, on code points. -/
def isDigitB (c : Char) : Bool := 48 ≤ c.toNat && c.toNat ≤ 57

/-- Numeric value of a decimal digit list, most significant first. -/
def valOfDigits (l : List Char) : Nat :=
  l.foldl (fun a c => 10 * a + (c.toNat - 48)) 0

/-- Value of a nonempty all-digit character list, most significant first. -/
def digitsVal? (l : List Char) : Option Nat :=
  if l ≠ [] ∧ l.all isDigitB then some (valOfDigits l) else none

/-- Parse an integer the way Python `int(str)` does on its decimal
fragment: surrounding whitespace is ignored, an optional sign precedes
the digits, and anything else fails (the model omits `int()`'s digit
underscores and non-ASCII digits, which the application never produces). -/
def pyInt? (s : String) : Option Int :=
  if (trimChars s.data).take 1 = ['-'] then
    (digitsVal? ((trimChars s.data).drop 1)).map (fun n => -(n : Int))
  else if (trimChars s.data).take 1 = ['+'] then
    (digitsVal? ((trimChars s.data).drop 1)).map (fun n => (n : Int))
  else (digitsVal? (trimChars s.data)).map (fun n => (n : Int))

/-- A row is the list of its cell values, aligned with the column list. -/
abbrev Row := List Value

/-- The loaded table: column names and rows (`streamlit_app.py` line 27-28). -/
structure DataFrame where
  cols : List String
  rows : List Row
deriving DecidableEq, Repr

/-- Cell of row `r` in column `c`: the value at the column's first index,
missing when the column is absent. -/
def getVal (cols : List String) (r : Row) (c : String) : Value :=
  match cols.findIdx? (· == c) with
  | some i => r.getD i .vNull
  | none => .vNull

/-- Column-role resolution for the Number role (line 33). -/
def colNUM (cols : List String) : Option String :=
  if "Element No" ∈ cols then some "Element No" else none

/-- Column-role resolution for the Name role, falling back to the first
column (line 34). -/
def colNAME (cols : List String) : String :=
  if "Element Name" ∈ cols then "Element Name" else cols.headD ""

/-- Column-role resolution for the Symbol role (line 35). -/
def colSYM (cols : List String) : Option String :=
  if "Symbol" ∈ cols then some "Symbol" else none

/-- Column-role resolution for the Category role (line 36). -/
def colCAT (cols : List String) : Option String :=
  if "Category" ∈ cols then some "Category" else none

/-- Column-role resolution for the Action role (line 37). -/
def colACT (cols : List String) : Option String :=
  if "Action" ∈ cols then some "Action" else none

/-- The values of one column, in row order. -/
def colVals (df : DataFrame) (c : String) : List Value :=
  df.rows.map (fun r => getVal df.cols r c)

/-- Whether a column's dtype is numeric
(`pd.api.types.is_numeric_dtype`, line 71), derived from the values the
column holds: a column containing a string is object dtype, otherwise it
is a numeric (integer / float-of-integers) column. -/
def isNumericCol (vs : List Value) : Bool :=
  vs.all (fun v => match v with | .vStr _ => false | _ => true)

/-- The nullable-integer reading of one cell: an integer converts,
anything else is `NA`/unconvertible. -/
def valInt? : Value → Option Int
  | .vInt m => some m
  | .vStr _ => none
  | .vNull => none

/-- Conversion of a column to the nullable integer dtype
(`.astype("Int64")`, lines 99 and 232): integers convert, missing cells
become `NA` (`none`), and any string cell makes the whole conversion
raise (`none` overall). -/
def astypeInt64? : List Value → Option (List (Option Int))
  | [] => some []
  | .vInt m :: vs => (astypeInt64? vs).map (fun l => some m :: l)
  | .vNull :: vs => (astypeInt64? vs).map (fun l => none :: l)
  | .vStr _ :: _ => none

/-- Code-point comparison of character lists; models Python string `<=`
(lexicographic by code point). -/
def charsLe : List Char → List Char → Bool
  | [], _ => true
  | _ :: _, [] => false
  | a :: as, b :: bs => if a = b then charsLe as bs else decide (a.toNat < b.toNat)

/-- Python `str <=` on strings, by code points. -/
def strLeB (a b : String) : Bool := charsLe a.data b.data

/-- The option list a sidebar multiselect offers (and selects by
default): the column's non-null values, stringified, deduplicated and
sorted (`multiselect_all`, lines 57-60). -/
def multiselectVals (df : DataFrame) (c : String) : List String :=
  List.insertionSort (fun a b => strLeB a b = true)
    ((((colVals df c).filter (fun v => v ≠ .vNull)).map pyStr).dedup)

/-- Whether the numeric-range filter exists for the dataset: the Number
role is present and its column has a numeric dtype (lines 70-74). -/
def numFilterActive (df : DataFrame) : Bool :=
  match colNUM df.cols with
  | some c => isNumericCol (colVals df c)
  | none => false

/-- Category filtering stage (lines 81-82): when the Category role
exists, keep the rows whose stringified Category value is among the
chosen ones. -/
def catStep (df : DataFrame) (chosen : List String) (rows : List Row) : List Row :=
  match colCAT df.cols with
  | some c => rows.filter (fun r => chosen.contains (pyStr (getVal df.cols r c)))
  | none => rows

/-- Action filtering stage (lines 83-84). -/
def actStep (df : DataFrame) (chosen : List String) (rows : List Row) : List Row :=
  match colACT df.cols with
  | some c => rows.filter (fun r => chosen.contains (pyStr (getVal df.cols r c)))
  | none => rows

/-- Numeric-range filtering stage (lines 85-86): active only when the
Number role is present with numeric dtype (the slider of lines 70-74
exists exactly then); a row passes when its Number cell is an integer in
`[lo, hi]`; missing cells compare false, as pandas `NaN >= lo` does. -/
def rangeStep (df : DataFrame) (lo hi : Int) (rows : List Row) : List Row :=
  match colNUM df.cols with
  | some c =>
    if isNumericCol (colVals df c) then
      rows.filter (fun r => match getVal df.cols r c with
        | .vInt m => decide (lo ≤ m) && decide (m ≤ hi)
        | _ => false)
    else rows
  | none => rows

/-- The filter pipeline of lines 79-86: category, then action, then
numeric range, over a copy of the dataset's rows. -/
def applyFilters (df : DataFrame) (ccats cacts : List String) (lo hi : Int) : List Row :=
  rangeStep df lo hi (actStep df cacts (catStep df ccats df.rows))

/-- The default (select-everything) Category selection (line 59's
`default=vals`). -/
def defaultCats (df : DataFrame) : List String :=
  match colCAT df.cols with
  | some c => multiselectVals df c
  | none => []

/-- The default (select-everything) Action selection. -/
def defaultActs (df : DataFrame) : List String :=
  match colACT df.cols with
  | some c => multiselectVals df c
  | none => []

/-- The integers present in a column (pandas `min`/`max` skip `NaN`). -/
def colInts (df : DataFrame) (c : String) : List Int :=
  (colVals df c).filterMap (fun v => match v with | .vInt m => some m | _ => none)

/-- `int(df[NUM].min())` of line 72, defaulting to 0 on an empty column. -/
def colMinD (df : DataFrame) (c : String) : Int :=
  match colInts df c with
  | [] => 0
  | x :: xs => xs.foldl min x

/-- `int(df[NUM].max())` of line 73, defaulting to 0 on an empty column. -/
def colMaxD (df : DataFrame) (c : String) : Int :=
  match colInts df c with
  | [] => 0
  | x :: xs => xs.foldl max x

/-- The default slider lower bound, `int(df[NUM].min())` of line 72. -/
def defaultLo (df : DataFrame) : Int :=
  match colNUM df.cols with
  | some c => colMinD df c
  | none => 0

/-- The default slider upper bound, `int(df[NUM].max())` of line 73. -/
def defaultHi (df : DataFrame) : Int :=
  match colNUM df.cols with
  | some c => colMaxD df c
  | none => 0

/-- One unit of a compiled search pattern: a literal character or the
`.` wildcard. -/
inductive PatChar where
  | lit (c : Char)
  | anyChar
deriving DecidableEq, Repr

/-- Regular-expression metacharacters outside the modelled fragment.
`df.apply(... .str.contains(ql) ...)` (line 110) compiles the raw query
as a Python regex; the model covers literal characters and the `.`
wildcard and maps every pattern using another metacharacter to a compile
failure — Python genuinely raises `re.error` for the ones the claims
exercise (an unbalanced `(`), while patterns making valid use of
quantifiers, classes or alternation are outside the fragment. -/
def metaChars : List Char :=
  ['\\', '^', '$', '*', '+', '?', '[', ']', '|', '(', ')', Char.ofNat 123, Char.ofNat 125]

/-- Compile a query string into the modelled pattern fragment. -/
def compilePat? (q : List Char) : Option (List PatChar) :=
  if q.any (fun c => metaChars.contains c) then none
  else some (q.map (fun c => if c = '.' then PatChar.anyChar else PatChar.lit c))

/-- Whether one pattern unit matches one character; `.` matches anything
but a newline (Python `re` without `DOTALL`). -/
def patCharMatch : PatChar → Char → Bool
  | .lit a, c => a == c
  | .anyChar, c => c != '\n'

/-- Whether the pattern matches a prefix of the text. -/
def matchHere : List PatChar → List Char → Bool
  | [], _ => true
  | _ :: _, [] => false
  | p :: ps, c :: cs => patCharMatch p c && matchHere ps cs

/-- Whether the pattern matches anywhere in the text; models
`re.search`, which `pandas.Series.str.contains` performs. -/
def reSearch (p : List PatChar) : List Char → Bool
  | [] => matchHere p []
  | s@(_ :: rest) => matchHere p s || reSearch p rest

/-- The per-row broad-contains predicate of line 110: some cell's
lowercased string form matches the lowercased query pattern. -/
def rowContains (pat : List PatChar) (r : Row) : Bool :=
  r.any (fun v => reSearch pat (lowerStr (pyStr v)).data)

/-- The per-row exact-Number flag of lines 95-101, tri-valued as pandas
leaves it: `some b` for a definite boolean, `none` for the `NA` a
missing Number cell produces after `.astype("Int64") == n`.  When the
Number role is absent, the query does not parse as an integer, or the
column-wide `astype` raises (a string cell) — the latter caught by the
`try` of lines 97-101 — every row's flag is a definite `False`. -/
def exactNumQ (df : DataFrame) (ql : String) (r : Row) : Option Bool :=
  match colNUM df.cols, pyInt? ql with
  | some c, some n =>
    if (astypeInt64? (colVals df c)).isSome then
      match getVal df.cols r c with
      | .vInt m => some (decide (m = n))
      | _ => none
    else some false
  | _, _ => some false

/-- The per-row exact-Symbol flag of lines 103-105. -/
def exactSymQ (df : DataFrame) (ql : String) (r : Row) : Bool :=
  match colSYM df.cols with
  | some c => lowerStr (pyStr (getVal df.cols r c)) == ql
  | none => false

/-- The per-row exact-Name flag of line 107. -/
def exactNameQ (df : DataFrame) (ql : String) (r : Row) : Bool :=
  lowerStr (pyStr (getVal df.cols r (colNAME df.cols))) == ql

/-- The relevance score of lines 117-121: 100 for an exact Number match,
plus 80 for an exact Symbol match, plus 60 for an exact Name match. -/
def scoreRow (df : DataFrame) (ql : String) (r : Row) : Int :=
  (if (exactNumQ df ql r).getD false then 100 else 0)
    + (if exactSymQ df ql r then 80 else 0)
    + (if exactNameQ df ql r then 60 else 0)

/-- Columns after `out["_score"] = ...` (line 122): assigning to an
existing `_score` column overwrites it in place, otherwise the column is
appended on the right. -/
def withScoreCols (cols : List String) : List String :=
  if cols.contains "_score" then cols else cols ++ ["_score"]

/-- Index of the `_score` column after line 122's assignment. -/
def scoreIdx (cols : List String) : Nat :=
  ((withScoreCols cols).findIdx? (· == "_score")).getD 0

/-- A row after line 122's assignment of its score. -/
def setScore (cols : List String) (r : Row) (s : Int) : Row :=
  if cols.contains "_score" then r.set (scoreIdx cols) (.vInt s) else r ++ [.vInt s]

/-- A row after `out.drop(columns=["_score"])` (line 124). -/
def dropScoreRow (cols : List String) (r : Row) : Row :=
  r.eraseIdx (scoreIdx cols)

/-- The columns after line 124's drop. -/
def dropScoreCols (cols : List String) : List String :=
  (withScoreCols cols).eraseIdx (scoreIdx cols)

/-- Sort-key comparison of single cells, as pandas `sort_values` orders
them: integers by value, strings by code points, missing values last
(`na_position="last"`).  pandas raises `TypeError` when asked to compare
an integer with a string; the model totalises that case (integers before
strings), which no claim exercises. -/
def valueLe : Value → Value → Bool
  | .vInt a, .vInt b => decide (a ≤ b)
  | .vStr a, .vStr b => strLeB a b
  | .vInt _, .vStr _ => true
  | .vStr _, .vInt _ => false
  | .vNull, .vNull => true
  | .vNull, _ => false
  | _, .vNull => true

/-- The integer stored in a score-carrying row's `_score` cell. -/
def scoreCellInt (cols : List String) (r : Row) : Int :=
  match r.getD (scoreIdx cols) .vNull with
  | .vInt m => m
  | _ => 0

/-- The sort order of line 123,
`sort_values(by=["_score"] + ([NUM] if NUM else []), ascending=[False] + ...)`:
score descending, ties by the Number cell ascending when the Number role
exists.  With the Number role present the model's stable sort is exact:
pandas' multi-key `sort_values` is a stable `lexsort`.  Without it, line
123 is a single-key sort with pandas' default `kind=quicksort`, whose
order within equal scores is unspecified; the model's sort then realises
one admissible outcome of that sort, and no theorem in this file relies
on which one — every statement about that case claims only properties
shared by all correct sorts (sortedness by score, permutation of the
survivors). -/
def leScored (cols : List String) (r1 r2 : Row) : Bool :=
  let s1 := scoreCellInt cols r1
  let s2 := scoreCellInt cols r2
  decide (s1 > s2) ||
    (decide (s1 = s2) &&
      (match colNUM cols with
       | some c => valueLe (getVal (withScoreCols cols) r1 c) (getVal (withScoreCols cols) r2 c)
       | none => true))

/-- `smart_search` (lines 89-125).  The `Except` result models the two
uncaught exceptions the body can raise: `re.error` from compiling an
invalid query pattern inside the `contains` scan of line 110 (raised
only when a row exists to scan), and the `ValueError` of line 118's
`.astype(int)` when a surviving row's exact-Number flag is `NA`.  The
sort realises line 123's ordering (`leScored`); when the Number role is
absent that line's single-key default quicksort leaves the order within
equal scores unspecified, so the tie order produced here is one
admissible outcome and no theorem depends on it (see `leScored`). -/
def smart_search (df_in : DataFrame) (q : String) : Except String DataFrame :=
  let ql := lowerStr q
  if ql.data = [] then .ok df_in
  else
    match compilePat? ql.data with
    | none => if df_in.rows = [] then .ok df_in else .error "re.error"
    | some pat =>
      let outRows := df_in.rows.filter (rowContains pat)
      if outRows = [] then .ok ⟨df_in.cols, []⟩
      else if outRows.any (fun r => (exactNumQ df_in ql r).isNone) then
        .error "ValueError: cannot convert NA to integer"
      else
        let scored := outRows.map (fun r => setScore df_in.cols r (scoreRow df_in ql r))
        let sorted := List.insertionSort (fun a b => leScored df_in.cols a b = true) scored
        .ok ⟨dropScoreCols df_in.cols, sorted.map (dropScoreRow df_in.cols)⟩

/-- The rows surviving line 110-112's contains filter for a query (the
set line 117's scoring then ranks); empty when the pattern does not
compile. -/
def survivors (df : DataFrame) (q : String) : List Row :=
  match compilePat? (lowerStr q).data with
  | some pat => df.rows.filter (rowContains pat)
  | none => []

/-- The default re-sort of lines 129-131, applied to the search output:
when the Number role exists with numeric dtype (dtype is a property of
the loaded column, so it is read off the original dataset's values), the
rows are re-sorted by Number ascending. -/
def defaultSort (df : DataFrame) (sr : DataFrame) : DataFrame :=
  match colNUM df.cols with
  | some c =>
    if isNumericCol (colVals df c) then
      ⟨sr.cols, List.insertionSort
        (fun r1 r2 => valueLe (getVal sr.cols r1 c) (getVal sr.cols r2 c) = true) sr.rows⟩
    else sr
  | none => sr

/-- The Normal-view row pipeline of lines 79-131: filters, then
`smart_search`, then the default Number re-sort. -/
def pipelineRows (df : DataFrame) (ccats cacts : List String) (lo hi : Int) (q : String) :
    Except String DataFrame :=
  (smart_search ⟨df.cols, applyFilters df ccats cacts lo hi⟩ q).map (defaultSort df)

/-- The favorite / compare toggle of lines 315-330: remove the key when
present, insert it otherwise (a Python `set` is modelled as a
`Finset String`). -/
def toggleKey (s : Finset String) (k : String) : Finset String :=
  if k ∈ s then s.erase k else insert k s

/-- `row_key` (lines 191-194): the stringified integer Number when the
Number role exists — `int(...)` raises on a missing cell (`none`) and
parses a string cell — otherwise the stringified Name. -/
def rowKey? (df : DataFrame) (r : Row) : Option String :=
  match colNUM df.cols with
  | some c =>
    match getVal df.cols r c with
    | .vInt m => some (intToStr m)
    | .vStr s => (pyInt? s).map intToStr
    | .vNull => none
  | none => some (pyStr (getVal df.cols r (colNAME df.cols)))

/-- The distinct outcomes the view layer can present (lines 247-297):
the favorites view's empty-state warning or list, the compare view's
insufficient-selection advisory (line 267) or list, the normal view's
no-matches notice (line 293) or results list, and an uncaught exception
(`row_key` raising on a row without a key). -/
inductive Presentation where
  | crash
  | favoritesEmpty
  | favoritesList (rows : List Row)
  | insufficientCompare
  | compareList (rows : List Row)
  | noMatches
  | resultsList (rows : List Row)
deriving DecidableEq, Repr

/-- Sorting a row list by the Number column when that role exists
(lines 254 and 271-272). -/
def sortByNum (df : DataFrame) (rows : List Row) : List Row :=
  match colNUM df.cols with
  | some c => List.insertionSort
      (fun r1 r2 => valueLe (getVal df.cols r1 c) (getVal df.cols r2 c) = true) rows
  | none => rows

/-- Row keys of every dataset row, as `df.apply(lambda r: row_key(r) ...)`
computes them — the apply evaluates `row_key` on every row, so one
key-less row makes the whole scan raise. -/
def keyedRows? (df : DataFrame) : Option (List (String × Row)) :=
  df.rows.mapM (fun r => (rowKey? df r).map (fun k => (k, r)))

/-- The favorites view (lines 248-261): select the dataset rows whose
key is a favorite, warn when there are none, otherwise list them sorted
by Number when that role exists. -/
def favoritesView (df : DataFrame) (favs : Finset String) : Presentation :=
  match keyedRows? df with
  | none => .crash
  | some keyed =>
    let favRows := (keyed.filter (fun p => decide (p.1 ∈ favs))).map (fun p => p.2)
    if favRows = [] then .favoritesEmpty
    else .favoritesList (sortByNum df favRows)

/-- The compare view (lines 264-287): fewer than two selected keys stop
with the insufficient-selection advisory before any row is looked up;
otherwise the selected rows are listed, sorted by Number when that role
exists. -/
def compareView (df : DataFrame) (cmp : Finset String) : Presentation :=
  if cmp.card < 2 then .insufficientCompare
  else
    match keyedRows? df with
    | none => .crash
    | some keyed =>
      .compareList (sortByNum df ((keyed.filter (fun p => decide (p.1 ∈ cmp))).map (fun p => p.2)))

/-- The normal results view (lines 290-343, mobile layout): the
no-matches notice on an empty row set, otherwise the row cards, each of
which computes `row_key` (line 298). -/
def normalView (df : DataFrame) (rows : List Row) : Presentation :=
  if rows = [] then .noMatches
  else
    match rows.mapM (fun r => rowKey? df r) with
    | none => .crash
    | some _ => .resultsList rows

/-- UTF-8 bytes of a character, by code-point range. -/
def utf8Bytes (c : Char) : List Nat :=
  if c.toNat < 128 then [c.toNat]
  else if c.toNat < 2048 then [192 + c.toNat / 64, 128 + c.toNat % 64]
  else if c.toNat < 65536 then
    [224 + c.toNat / 4096, 128 + c.toNat / 64 % 64, 128 + c.toNat % 64]
  else
    [240 + c.toNat / 262144, 128 + c.toNat / 4096 % 64, 128 + c.toNat / 64 % 64, 128 + c.toNat % 64]

/-- Whether a byte is a UTF-8 continuation byte. -/
def contOkB (b : Nat) : Bool := decide (128 ≤ b) && decide (b < 192)

/-- Decode one UTF-8 character from the front of a byte list, returning
it with the remaining bytes.  Continuation bytes are addressed through
`getD`/`drop` so the definition stays a plain cascade of tests. -/
def utf8DecodeChar : List Nat → Option (Char × List Nat)
  | [] => none
  | b :: bs =>
    if b < 128 then some (Char.ofNat b, bs)
    else if b < 192 then none
    else if b < 224 then
      if contOkB (bs.getD 0 0) && decide (1 ≤ bs.length) then
        some (Char.ofNat ((b - 192) * 64 + (bs.getD 0 0 - 128)), bs.drop 1)
      else none
    else if b < 240 then
      if (contOkB (bs.getD 0 0) && contOkB (bs.getD 1 0)) && decide (2 ≤ bs.length) then
        some (Char.ofNat ((b - 224) * 4096 + (bs.getD 0 0 - 128) * 64 + (bs.getD 1 0 - 128)),
          bs.drop 2)
      else none
    else
      if ((contOkB (bs.getD 0 0) && contOkB (bs.getD 1 0)) && contOkB (bs.getD 2 0))
          && decide (3 ≤ bs.length) then
        some (Char.ofNat ((b - 240) * 262144 + (bs.getD 0 0 - 128) * 4096
          + (bs.getD 1 0 - 128) * 64 + (bs.getD 2 0 - 128)), bs.drop 3)
      else none

/-- Decode a whole byte list, character by character; the fuel makes the
recursion structural (a byte list of length `n` holds at most `n`
characters). -/
def utf8DecodeLoop : Nat → List Nat → Option (List Char)
  | _, [] => some []
  | 0, _ :: _ => none
  | fuel + 1, b :: bs =>
    match utf8DecodeChar (b :: bs) with
    | some (c, rest) => (utf8DecodeLoop fuel rest).map (fun cs => c :: cs)
    | none => none

/-- UTF-8 decoding of a byte list; models `bytes.decode("utf-8")` on the
sequences the encoder emits (the model does not reject overlong or
out-of-range forms, which never arise from `utf8Bytes`). -/
def utf8Decode (l : List Nat) : Option (List Char) :=
  utf8DecodeLoop l.length l

/-- Uppercase hexadecimal digit for `n < 16`, as Python `quote` emits. -/
def hexDigit (n : Nat) : Char :=
  if n < 10 then Char.ofNat (48 + n) else Char.ofNat (55 + n)

/-- Hexadecimal digit value, either case, as Python `unquote` accepts. -/
def hexVal? (c : Char) : Option Nat :=
  let x := c.toNat
  if 48 ≤ x && x ≤ 57 then some (x - 48)
  else if 65 ≤ x && x ≤ 70 then some (x - 55)
  else if 97 ≤ x && x ≤ 102 then some (x - 87)
  else none

/-- Characters `urllib.parse.quote_plus` leaves unescaped: ASCII
letters, digits, and `_ . - ~` (stated on code points). -/
def quoteSafe (c : Char) : Bool :=
  let x := c.toNat
  (65 ≤ x && x ≤ 90) || (97 ≤ x && x ≤ 122) || (48 ≤ x && x ≤ 57)
    || x == 95 || x == 46 || x == 45 || x == 126

/-- Percent-escape of one byte. -/
def pctEncByte (b : Nat) : List Char := ['%', hexDigit (b / 16), hexDigit (b % 16)]

/-- `quote_plus` treatment of one character: safe characters pass
through, a space becomes `+`, anything else is percent-escaped
byte-wise in UTF-8. -/
def quoteChar (c : Char) : List Char :=
  if quoteSafe c then [c]
  else if c = ' ' then ['+']
  else (utf8Bytes c).flatMap pctEncByte

/-- `urllib.parse.quote_plus` over a whole string. -/
def quotePlusChars (l : List Char) : List Char :=
  l.flatMap quoteChar

/-- `element_share_link` (lines 186-189): `"?" + urlencode({"el": val})`,
which is `"?el=" + quote_plus(val)`. -/
def element_share_link (val : String) : String :=
  ⟨'?' :: 'e' :: 'l' :: '=' :: quotePlusChars val.data⟩

/-- One token of a percent-and-plus encoded query value, as
`urllib.parse.parse_qs`'s decoding reads it: `+` is a space, `%XX` is a
byte, and any other character stands for its own code. -/
def qsStep : List Char → Option (Nat × List Char)
  | [] => none
  | c :: rest =>
    if c = '%' then
      if ((hexVal? (rest.getD 0 ' ')).isSome && (hexVal? (rest.getD 1 ' ')).isSome)
          && decide (2 ≤ rest.length) then
        some (16 * (hexVal? (rest.getD 0 ' ')).getD 0 + (hexVal? (rest.getD 1 ' ')).getD 0,
          rest.drop 2)
      else none
    else if c = '+' then some (32, rest)
    else some (c.toNat, rest)

/-- Decode the whole value, token by token; the fuel makes the
recursion structural (each token consumes at least one character). -/
def qsLoop : Nat → List Char → Option (List Nat)
  | _, [] => some []
  | 0, _ :: _ => none
  | fuel + 1, c :: rest =>
    match qsStep (c :: rest) with
    | some (b, rest') => (qsLoop fuel rest').map (fun bs => b :: bs)
    | none => none

/-- The byte stream of a whole percent-and-plus encoded value. -/
def qsBytes? (l : List Char) : Option (List Nat) :=
  qsLoop l.length l

/-- `urllib.parse.unquote_plus` on the fragment the encoder produces. -/
def unquotePlus? (l : List Char) : Option (List Char) :=
  (qsBytes? l).bind utf8Decode

/-- Extraction of the `el` query parameter from a produced link; models
the external query-string layer (spec section 6) that Streamlit's
`st.query_params` performs on `"?el=..."`. -/
def parseElParam (link : String) : Option String :=
  if link.data.take 4 = ['?', 'e', 'l', '='] then
    (unquotePlus? (link.data.drop 4)).map (fun cs => ⟨cs⟩)
  else none

/-- Deep-link resolution of lines 227-241: when the Number role exists,
try `int(el)` and match the column cast to nullable integers — a parse
failure or a raising cast is swallowed by the `try` — and fall back to
an exact stringified-Name match; the first matching row wins. -/
def resolveDeepEl (df : DataFrame) (el : String) : Option Row :=
  let byNum : Option Row :=
    match colNUM df.cols with
    | some c =>
      match pyInt? el, astypeInt64? (colVals df c) with
      | some n, some vals => ((df.rows.zip vals).find? (fun p => p.2 == some n)).map (fun p => p.1)
      | _, _ => none
    | none => none
  match byNum with
  | some r => some r
  | none => df.rows.find? (fun r => pyStr (getVal df.cols r (colNAME df.cols)) == el)

/-- Following a produced share link end to end: parse its `el` parameter
and resolve it against the dataset. -/
def resolveLink (df : DataFrame) (link : String) : Option Row :=
  (parseElParam link).bind (resolveDeepEl df)

/-- Prefix test on character lists. -/
def prefixOfB : List Char → List Char → Bool
  | [], _ => true
  | _ :: _, [] => false
  | a :: as, b :: bs => a == b && prefixOfB as bs

/-- Substring test on character lists. -/
def substrB (needle : List Char) : List Char → Bool
  | [] => prefixOfB needle []
  | s@(_ :: rest) => prefixOfB needle s || substrB needle rest

/-- Modelled from the spec's words (section 4.3 / claim C3's "contains
the lowercased query as a substring"): a row matches when the lowercase
string form of some column value contains the lowercase query as a
substring.  Kept separate from `rowContains`, which follows the code's
regex semantics, so the two can be compared. -/
def specContainsRow (q : String) (r : Row) : Bool :=
  r.any (fun v => substrB (lowerStr q).data (lowerStr (pyStr v)).data)

end Explorer

namespace Explorer

/-! ### Concrete datasets used by counterexamples and witnesses -/

/-- Two-element dataset realising the spec's own ranking example, with
the query string `"12"` also occurring inside a text field of the other
row. -/
def exView : DataFrame :=
  ⟨["Element No", "Element Name", "Symbol", "Definition"],
   [[.vInt 7, .vStr "Sampling Frame", .vStr "SF", .vStr "see page 12 note"],
    [.vInt 12, .vStr "Research Paradigm", .vStr "RP", .vStr "A basic belief system"]]⟩

/-- Dataset whose second row has a missing Category value. -/
def exNullCat : DataFrame :=
  ⟨["Element No", "Element Name", "Category"],
   [[.vInt 1, .vStr "Alpha", .vStr "X"],
    [.vInt 2, .vStr "Beta", .vNull]]⟩

/-- One-row dataset whose Name matches the pattern `"x.z"` as a regex
but does not contain it as a substring. -/
def exRegex : DataFrame := ⟨["Element Name"], [[.vStr "xyz"]]⟩

/-- Dataset whose Number column mixes an integer with a string cell. -/
def exMixedNum : DataFrame :=
  ⟨["Element No", "Element Name"],
   [[.vInt 12, .vStr "Alpha"], [.vStr "x", .vStr "Beta"]]⟩

/-- Dataset whose Number column has a missing value in the second row. -/
def exNullNum : DataFrame :=
  ⟨["Element No", "Element Name"],
   [[.vInt 7, .vStr "Alpha"], [.vNull, .vStr "Beta"]]⟩

/-- One-row dataset that already carries a column named `_score`. -/
def exScoreCol : DataFrame := ⟨["Element Name", "_score"], [[.vStr "abc", .vInt 5]]⟩

/-- Dataset whose second row has an empty-string Symbol cell: against
the empty query that cell is an exact lowercased Symbol match (score
80), while the first row scores 0. -/
def exEmptyQ : DataFrame :=
  ⟨["Element Name", "Symbol"],
   [[.vStr "Alpha", .vStr "x"], [.vStr "Beta", .vStr ""]]⟩

end Explorer

namespace Explorer

/-! ### C1 -/

/-- C1: the claim "in Normal view the rows presented are exactly
rank(filter(dataset))" fails on the code: on the spec's own example
dataset with query `"12"` and default filters, `smart_search` ranks the
Number-12 row first, but the pipeline then re-sorts by Element No
ascending (lines 129-131), so the presented rows start with the
Number-7 row.  The ranking the claim (and `smart_search`'s comment)
promises never reaches the screen. -/
theorem c1_default_sort_discards_ranking :
    pipelineRows exView [] [] 7 12 "12" =
      .ok ⟨exView.cols,
        [[.vInt 7, .vStr "Sampling Frame", .vStr "SF", .vStr "see page 12 note"],
         [.vInt 12, .vStr "Research Paradigm", .vStr "RP", .vStr "A basic belief system"]]⟩
    ∧ smart_search ⟨exView.cols, applyFilters exView [] [] 7 12⟩ "12" =
      .ok ⟨exView.cols,
        [[.vInt 12, .vStr "Research Paradigm", .vStr "RP", .vStr "A basic belief system"],
         [.vInt 7, .vStr "Sampling Frame", .vStr "SF", .vStr "see page 12 note"]]⟩ := by
  constructor <;> rfl

/-! ### C2 counterexample -/

/-- C2 fails as stated: on a dataset whose second row has a missing
Category value, the default (all observed values) selections and the
full `[min, max]` Number range do not return the full dataset — the
null-Category row is dropped, because the multiselect's option list is
built from `dropna()` while the filter stringifies the missing cell to
`"nan"`. -/
theorem c2_default_filters_drop_null_category :
    applyFilters exNullCat (defaultCats exNullCat) (defaultActs exNullCat)
        (colMinD exNullCat "Element No") (colMaxD exNullCat "Element No") =
      [[.vInt 1, .vStr "Alpha", .vStr "X"]]
    ∧ applyFilters exNullCat (defaultCats exNullCat) (defaultActs exNullCat)
        (colMinD exNullCat "Element No") (colMaxD exNullCat "Element No") ≠ exNullCat.rows := by
  exact ⟨rfl, by decide⟩

/-! ### C3 counterexample -/

/-- C3 fails as stated: the query `"x.z"` survives the code's contains
filter on a row whose Name is `"xyz"` — `str.contains` treats the query
as a regular expression, where `.` matches any character — yet no column
of that row contains `"x.z"` as a substring. -/
theorem c3_regex_row_is_not_substring_match :
    smart_search exRegex "x.z" = .ok ⟨["Element Name"], [[.vStr "xyz"]]⟩
    ∧ specContainsRow "x.z" [.vStr "xyz"] = false := by
  constructor <;> rfl

/-! ### C6 counterexample -/

/-- C6 fails as stated: in a dataset whose Number column mixes an
integer with a string cell, the first row's key is `"12"` and its link
carries `el=12`, but resolution finds nothing: the `astype("Int64")`
cast of the mixed column raises (swallowed by the `try`), and the Name
fallback matches no row named `"12"`. -/
theorem c6_mixed_number_column_breaks_round_trip :
    rowKey? exMixedNum [.vInt 12, .vStr "Alpha"] = some "12"
    ∧ parseElParam (element_share_link "12") = some "12"
    ∧ resolveLink exMixedNum (element_share_link "12") = none := by
  refine ⟨rfl, rfl, rfl⟩

/-! ### C9 -/

/-- C9 fails on the code: opening the favorites view on a dataset whose
numeric Number column has a missing value raises an uncaught
`ValueError` — `row_key` (line 193) computes `int(nan)` because the
favorites scan of line 250 applies it to every dataset row, favorites or
not.  The search path has a second uncaught error: a query that is an
invalid regular expression, such as `"("`, makes line 110's
`str.contains` raise `re.error`. -/
theorem c9_row_key_raises_on_missing_number :
    favoritesView exNullNum ∅ = .crash
    ∧ smart_search exNullNum "(" = .error "re.error" := by
  constructor <;> rfl

/-! ### C10 counterexample -/

/-- C10 fails as stated: when the input dataframe itself has a column
named `_score`, `smart_search` overwrites it with the internal ranking
score and then drops it, so the output's column set is missing a column
the input had. -/
theorem c10_score_column_is_clobbered :
    smart_search exScoreCol "a" = .ok ⟨["Element Name"], [[.vStr "abc"]]⟩
    ∧ ["Element Name"] ≠ exScoreCol.cols := by
  refine ⟨rfl, by decide⟩

end Explorer

namespace Explorer

/-! ### C5 -/

/-- C5: toggling the same key twice returns the selection state to its
prior value, for any state and any key — in particular for keys that
belong to no dataset row, since the toggle never consults the dataset. -/
theorem c5_toggle_twice_is_identity (s : Finset String) (k : String) :
    toggleKey (toggleKey s k) k = s := by
  unfold toggleKey
  by_cases h : k ∈ s
  · rw [if_pos h, if_neg (Finset.not_mem_erase k s), Finset.insert_erase h]
  · rw [if_neg h, if_pos (Finset.mem_insert_self k s), Finset.erase_insert h]

/-! ### C7 -/

/-- C7: a compare set with fewer than two keys produces the
insufficient-selection advisory, with no comparison rows, and that
signal is distinct from every outcome the normal results view can
produce (in particular from its no-matches signal). -/
theorem c7_insufficient_selection (df : DataFrame) (cmp : Finset String)
    (h : cmp.card < 2) :
    compareView df cmp = .insufficientCompare
    ∧ ∀ (df2 : DataFrame) (rows : List Row),
        normalView df2 rows ≠ Presentation.insufficientCompare := by
  constructor
  · unfold compareView
    rw [if_pos h]
  · intro df2 rows
    unfold normalView
    split
    · exact fun hc => Presentation.noConfusion hc
    · split
      · exact fun hc => Presentation.noConfusion hc
      · exact fun hc => Presentation.noConfusion hc

/-- Witness for C7 at a singleton compare set (and at the empty one). -/
theorem c7_witness :
    (({"7"} : Finset String).card < 2 ∧ (∅ : Finset String).card < 2)
    ∧ compareView exNullNum {"7"} = .insufficientCompare
    ∧ compareView exNullNum ∅ = .insufficientCompare :=
  ⟨⟨by decide, by decide⟩,
   (c7_insufficient_selection exNullNum {"7"} (by decide)).1,
   (c7_insufficient_selection exNullNum ∅ (by decide)).1⟩

/-! ### C8 -/

/-- C8: when the Number role is present with numeric dtype, a row passes
the range stage exactly when it came in and its Number cell is an
integer inside `[lo, hi]`; when the role is absent or the column is
non-numeric, the stage is skipped entirely — it returns its input
unchanged for every row — the activity decision being the column-wide
`numFilterActive`, not a per-row test. -/
theorem c8_range_stage_law (df : DataFrame) (lo hi : Int) (rows : List Row) :
    (∀ c, colNUM df.cols = some c → numFilterActive df = true →
      ∀ r, r ∈ rangeStep df lo hi rows ↔
        (r ∈ rows ∧ ∃ m, getVal df.cols r c = .vInt m ∧ lo ≤ m ∧ m ≤ hi))
    ∧ (numFilterActive df = false → rangeStep df lo hi rows = rows) := by
  constructor
  · intro c hc hact r
    simp only [numFilterActive, hc] at hact
    simp only [rangeStep, hc, if_pos hact, List.mem_filter]
    constructor
    · rintro ⟨hmem, hp⟩
      refine ⟨hmem, ?_⟩
      cases hval : getVal df.cols r c with
      | vInt m =>
        rw [hval] at hp
        simp only [Bool.and_eq_true, decide_eq_true_eq] at hp
        exact ⟨m, rfl, hp.1, hp.2⟩
      | vStr s => rw [hval] at hp; exact Bool.noConfusion hp
      | vNull => rw [hval] at hp; exact Bool.noConfusion hp
    · rintro ⟨hmem, m, hval, h1, h2⟩
      refine ⟨hmem, ?_⟩
      rw [hval]
      simp only [Bool.and_eq_true, decide_eq_true_eq]
      exact ⟨h1, h2⟩
  · intro hact
    cases hc : colNUM df.cols with
    | some c =>
      simp only [numFilterActive, hc] at hact
      simp only [rangeStep, hc, hact, Bool.false_eq_true, if_false]
    | none => simp only [rangeStep, hc]

/-- Witness for C8: on the example dataset the Number column is numeric
and the row with Number 7 passes the `[7, 12]` range stage by the law's
right-hand side. -/
theorem c8_witness :
    colNUM exView.cols = some "Element No"
    ∧ numFilterActive exView = true
    ∧ ([Value.vInt 7, Value.vStr "Sampling Frame", Value.vStr "SF",
         Value.vStr "see page 12 note"] ∈ rangeStep exView 7 12 exView.rows ↔
        ([Value.vInt 7, Value.vStr "Sampling Frame", Value.vStr "SF",
           Value.vStr "see page 12 note"] ∈ exView.rows
          ∧ ∃ m, getVal exView.cols
              [Value.vInt 7, Value.vStr "Sampling Frame", Value.vStr "SF",
               Value.vStr "see page 12 note"] "Element No" = .vInt m ∧ 7 ≤ m ∧ m ≤ 12)) :=
  ⟨rfl, rfl,
   (c8_range_stage_law exView 7 12 exView.rows).1 "Element No" rfl rfl _⟩

end Explorer

namespace Explorer

/-! ### C2 amended -/

/-- Folding `min` over a list never exceeds the initial value. -/
theorem foldl_min_le_init (xs : List Int) : ∀ x : Int, xs.foldl min x ≤ x := by
  induction xs with
  | nil => intro x; exact le_refl x
  | cons y ys ih =>
    intro x
    exact le_trans (ih (min x y)) (min_le_left x y)

/-- Folding `min` over a list bounds every member from below. -/
theorem foldl_min_le_mem (xs : List Int) : ∀ x m : Int, m ∈ xs → xs.foldl min x ≤ m := by
  induction xs with
  | nil => intro x m hm; cases hm
  | cons y ys ih =>
    intro x m hm
    rcases List.mem_cons.mp hm with rfl | hm
    · exact le_trans (foldl_min_le_init ys (min x m)) (min_le_right x m)
    · exact ih (min x y) m hm

/-- Folding `max` over a list is at least the initial value. -/
theorem le_foldl_max_init (xs : List Int) : ∀ x : Int, x ≤ xs.foldl max x := by
  induction xs with
  | nil => intro x; exact le_refl x
  | cons y ys ih =>
    intro x
    exact le_trans (le_max_left x y) (ih (max x y))

/-- Folding `max` over a list bounds every member from above. -/
theorem le_foldl_max_mem (xs : List Int) : ∀ x m : Int, m ∈ xs → m ≤ xs.foldl max x := by
  induction xs with
  | nil => intro x m hm; cases hm
  | cons y ys ih =>
    intro x m hm
    rcases List.mem_cons.mp hm with rfl | hm
    · exact le_trans (le_max_right x m) (le_foldl_max_init ys (max x m))
    · exact ih (max x y) m hm

/-- A row's integer Number cell is among the column's integers. -/
theorem mem_colInts (df : DataFrame) (c : String) (r : Row) (m : Int)
    (hr : r ∈ df.rows) (hv : getVal df.cols r c = .vInt m) : m ∈ colInts df c := by
  unfold colInts
  refine List.mem_filterMap.mpr ⟨getVal df.cols r c, ?_, ?_⟩
  · exact List.mem_map_of_mem _ hr
  · rw [hv]

/-- The column minimum of line 72 bounds every integer in the column. -/
theorem colMinD_le (df : DataFrame) (c : String) (m : Int) (hm : m ∈ colInts df c) :
    colMinD df c ≤ m := by
  unfold colMinD
  cases hci : colInts df c with
  | nil => rw [hci] at hm; cases hm
  | cons x xs =>
    rw [hci] at hm
    rcases List.mem_cons.mp hm with rfl | hm
    · exact foldl_min_le_init xs m
    · exact foldl_min_le_mem xs x m hm

/-- The column maximum of line 73 bounds every integer in the column. -/
theorem le_colMaxD (df : DataFrame) (c : String) (m : Int) (hm : m ∈ colInts df c) :
    m ≤ colMaxD df c := by
  unfold colMaxD
  cases hci : colInts df c with
  | nil => rw [hci] at hm; cases hm
  | cons x xs =>
    rw [hci] at hm
    rcases List.mem_cons.mp hm with rfl | hm
    · exact le_foldl_max_init xs m
    · exact le_foldl_max_mem xs x m hm

/-- Every non-null value of a column is offered (hence selected by
default) by that column's multiselect. -/
theorem pyStr_mem_multiselectVals (df : DataFrame) (c : String) (v : Value)
    (hv : v ∈ colVals df c) (hnn : v ≠ .vNull) :
    pyStr v ∈ multiselectVals df c := by
  unfold multiselectVals
  rw [List.mem_insertionSort, List.mem_dedup]
  exact List.mem_map_of_mem pyStr (List.mem_filter.mpr ⟨hv, by simpa using hnn⟩)

/-- With the default Category selection, the Category stage keeps every
row whose Category cell is not missing. -/
theorem catStep_default_id (df : DataFrame)
    (h : ∀ c, colCAT df.cols = some c → ∀ r ∈ df.rows, getVal df.cols r c ≠ .vNull) :
    catStep df (defaultCats df) df.rows = df.rows := by
  cases hc : colCAT df.cols with
  | none => simp only [catStep, hc]
  | some c =>
    simp only [catStep, defaultCats, hc]
    refine List.filter_eq_self.mpr ?_
    intro r hr
    have := pyStr_mem_multiselectVals df c (getVal df.cols r c)
      (List.mem_map_of_mem _ hr) (h c hc r hr)
    exact List.elem_eq_true_of_mem this

/-- With the default Action selection, the Action stage keeps every row
whose Action cell is not missing. -/
theorem actStep_default_id (df : DataFrame)
    (h : ∀ c, colACT df.cols = some c → ∀ r ∈ df.rows, getVal df.cols r c ≠ .vNull) :
    actStep df (defaultActs df) df.rows = df.rows := by
  cases hc : colACT df.cols with
  | none => simp only [actStep, hc]
  | some c =>
    simp only [actStep, defaultActs, hc]
    refine List.filter_eq_self.mpr ?_
    intro r hr
    have := pyStr_mem_multiselectVals df c (getVal df.cols r c)
      (List.mem_map_of_mem _ hr) (h c hc r hr)
    exact List.elem_eq_true_of_mem this

/-- With the default `[min, max]` range, the range stage keeps every row
whose Number cell is not missing (when the stage is active at all). -/
theorem rangeStep_default_id (df : DataFrame)
    (h : ∀ c, colNUM df.cols = some c → isNumericCol (colVals df c) = true →
      ∀ r ∈ df.rows, getVal df.cols r c ≠ .vNull) :
    rangeStep df (defaultLo df) (defaultHi df) df.rows = df.rows := by
  cases hc : colNUM df.cols with
  | none => simp only [rangeStep, hc]
  | some c =>
    cases hnum : isNumericCol (colVals df c) with
    | false => simp only [rangeStep, hc, hnum, Bool.false_eq_true, if_false]
    | true =>
      simp only [rangeStep, defaultLo, defaultHi, hc, hnum, if_true]
      refine List.filter_eq_self.mpr ?_
      intro r hr
      cases hval : getVal df.cols r c with
      | vInt m =>
        have hmem : m ∈ colInts df c := mem_colInts df c r m hr hval
        simp only [Bool.and_eq_true, decide_eq_true_eq]
        exact ⟨colMinD_le df c m hmem, le_colMaxD df c m hmem⟩
      | vStr s =>
        exfalso
        have hv : Value.vStr s ∈ colVals df c := hval ▸ List.mem_map_of_mem _ hr
        have := List.all_eq_true.mp hnum _ hv
        exact Bool.noConfusion this
      | vNull => exact absurd hval (h c hc hnum r hr)

/-- C2 amended: the claim holds for datasets with no missing values in
the columns being filtered on — with the default (all observed values)
Category and Action selections and the default `[min, max]` Number
range, `applyFilters` returns the full dataset in its original order.
(The counterexample shows a missing Category value already breaks the
unrestricted claim, because the default selections observe only
non-null values.) -/
theorem c2_default_filters_identity_amended (df : DataFrame)
    (hcat : ∀ c, colCAT df.cols = some c → ∀ r ∈ df.rows, getVal df.cols r c ≠ .vNull)
    (hact : ∀ c, colACT df.cols = some c → ∀ r ∈ df.rows, getVal df.cols r c ≠ .vNull)
    (hnum : ∀ c, colNUM df.cols = some c → isNumericCol (colVals df c) = true →
      ∀ r ∈ df.rows, getVal df.cols r c ≠ .vNull) :
    applyFilters df (defaultCats df) (defaultActs df) (defaultLo df) (defaultHi df) = df.rows := by
  unfold applyFilters
  rw [catStep_default_id df hcat, actStep_default_id df hact, rangeStep_default_id df hnum]

/-- Witness for C2 amended on the example dataset, whose filtered-on
columns have no missing values. -/
theorem c2_amended_witness :
    applyFilters exView (defaultCats exView) (defaultActs exView)
      (defaultLo exView) (defaultHi exView) = exView.rows :=
  c2_default_filters_identity_amended exView
    (fun c hc => Option.noConfusion hc)
    (fun c hc => Option.noConfusion hc)
    (fun c hc => by
      injection hc with hc'
      subst hc'
      intro _
      decide)

end Explorer

namespace Explorer

/-! ### Structure of a successful `smart_search` -/

/-- Injectivity of code points. -/
theorem char_eq_of_toNat_eq {a b : Char} (h : a.toNat = b.toNat) : a = b :=
  Char.ext (UInt32.ext h)

/-- Characterisation of `smart_search df q = .ok out`: the query was
empty or there were no rows (output is the input frame), or no row
survived the contains filter (empty output frame), or the output is the
score-sorted survivor list with the `_score` column dropped. -/
theorem smart_search_ok_elim (df : DataFrame) (q : String) (out : DataFrame)
    (hok : smart_search df q = .ok out) :
    (out = df ∧ ((lowerStr q).data = [] ∨ df.rows = []))
    ∨ (∃ pat, compilePat? (lowerStr q).data = some pat
        ∧ out = ⟨df.cols, []⟩ ∧ df.rows.filter (rowContains pat) = [])
    ∨ (∃ pat, compilePat? (lowerStr q).data = some pat
        ∧ df.rows.filter (rowContains pat) ≠ []
        ∧ (df.rows.filter (rowContains pat)).any
            (fun r => (exactNumQ df (lowerStr q) r).isNone) = false
        ∧ out.cols = dropScoreCols df.cols
        ∧ out.rows = (List.insertionSort (fun a b => leScored df.cols a b = true)
            ((df.rows.filter (rowContains pat)).map
              (fun r => setScore df.cols r (scoreRow df (lowerStr q) r)))).map
            (dropScoreRow df.cols)) := by
  unfold smart_search at hok
  by_cases hq : (lowerStr q).data = []
  · rw [if_pos hq] at hok
    exact Or.inl ⟨(Except.ok.inj hok).symm, Or.inl hq⟩
  · rw [if_neg hq] at hok
    cases hpat : compilePat? (lowerStr q).data with
    | none =>
      rw [hpat] at hok
      by_cases hrows : df.rows = []
      · rw [if_pos hrows] at hok
        exact Or.inl ⟨(Except.ok.inj hok).symm, Or.inr hrows⟩
      · rw [if_neg hrows] at hok
        exact Except.noConfusion hok
    | some pat =>
      rw [hpat] at hok
      simp only at hok
      by_cases hempty : df.rows.filter (rowContains pat) = []
      · rw [if_pos hempty] at hok
        exact Or.inr (Or.inl ⟨pat, rfl, (Except.ok.inj hok).symm, hempty⟩)
      · rw [if_neg hempty] at hok
        cases hna : (df.rows.filter (rowContains pat)).any
            (fun r => (exactNumQ df (lowerStr q) r).isNone) with
        | true =>
          rw [hna] at hok
          simp only [if_true] at hok
          exact Except.noConfusion hok
        | false =>
          rw [hna] at hok
          simp only [Bool.false_eq_true, if_false] at hok
          have := (Except.ok.inj hok).symm
          exact Or.inr (Or.inr ⟨pat, rfl, hempty, hna,
            by rw [this], by rw [this]⟩)

/-! ### The `_score` column mechanics -/

/-- A predicate false on a whole list puts `findIdx?` past it. -/
theorem findIdx?_append_last {α : Type} (p : α → Bool) (l : List α) (a : α)
    (hl : ∀ x ∈ l, p x = false) (ha : p a = true) :
    (l ++ [a]).findIdx? p = some l.length := by
  rw [List.findIdx?_append, List.findIdx?_eq_none_iff.mpr hl, Option.none_or]
  have h2 : List.findIdx? p [a] = some 0 := by
    rw [List.findIdx?_cons, ha]
    simp
  rw [h2]
  simp

/-- When the input has no `_score` column, the score cell sits right
after the row's own cells. -/
theorem scoreIdx_of_not_mem (cols : List String) (hs : "_score" ∉ cols) :
    scoreIdx cols = cols.length := by
  have hcont : cols.contains "_score" = false := by
    cases h : cols.contains "_score" with
    | false => rfl
    | true => exact absurd (List.mem_of_elem_eq_true h) hs
  unfold scoreIdx withScoreCols
  rw [hcont]
  simp only [Bool.false_eq_true, if_false]
  rw [findIdx?_append_last (· == "_score") cols "_score"
    (fun x hx => beq_eq_false_iff_ne.mpr (fun heq => hs (by rw [← heq]; exact hx))) (by simp)]
  rfl

/-- Erasing the appended element returns the original list. -/
theorem eraseIdx_append_length {α : Type} (l : List α) (a : α) :
    (l ++ [a]).eraseIdx l.length = l := by
  induction l with
  | nil => rfl
  | cons x xs ih => simpa [List.eraseIdx] using ih

/-- Setting then dropping the score leaves a well-formed row unchanged
when the frame had no `_score` column of its own. -/
theorem dropScore_setScore (cols : List String) (r : Row) (s : Int)
    (hs : "_score" ∉ cols) (hlen : r.length = cols.length) :
    dropScoreRow cols (setScore cols r s) = r := by
  have hcont : cols.contains "_score" = false := by
    cases h : cols.contains "_score" with
    | false => rfl
    | true => exact absurd (List.mem_of_elem_eq_true h) hs
  unfold setScore dropScoreRow
  rw [hcont]
  simp only [Bool.false_eq_true, if_false]
  rw [scoreIdx_of_not_mem cols hs, ← hlen, eraseIdx_append_length]

/-- Dropping the appended score column returns the original columns. -/
theorem dropScoreCols_of_not_mem (cols : List String) (hs : "_score" ∉ cols) :
    dropScoreCols cols = cols := by
  have hcont : cols.contains "_score" = false := by
    cases h : cols.contains "_score" with
    | false => rfl
    | true => exact absurd (List.mem_of_elem_eq_true h) hs
  unfold dropScoreCols withScoreCols
  rw [hcont]
  simp only [Bool.false_eq_true, if_false]
  rw [scoreIdx_of_not_mem cols hs, eraseIdx_append_length]

end Explorer

namespace Explorer

/-! ### C10 amended -/

/-- C10 amended: for inputs that do not themselves carry a `_score`
column (the counterexample shows such a column is destroyed), a
successful `smart_search` returns a frame with exactly the input's
column set — the internal `_score` column is gone — whose rows are all
drawn from the input's rows.  Input immutability is inherent to the
model: `smart_search` builds its output from copies (line 112's
`.copy()`). -/
theorem c10_frame_effect_amended (df : DataFrame) (q : String) (out : DataFrame)
    (hs : "_score" ∉ df.cols)
    (hwf : ∀ r ∈ df.rows, r.length = df.cols.length)
    (hok : smart_search df q = .ok out) :
    out.cols = df.cols ∧ ∀ r ∈ out.rows, r ∈ df.rows := by
  rcases smart_search_ok_elim df q out hok with ⟨rfl, _⟩ | ⟨pat, _, heq, _⟩ |
    ⟨pat, _, _, _, hcols, hrows⟩
  · exact ⟨rfl, fun r hr => hr⟩
  · rw [heq]
    exact ⟨rfl, fun r hr => absurd hr (List.not_mem_nil r)⟩
  · constructor
    · rw [hcols, dropScoreCols_of_not_mem df.cols hs]
    · intro r hr
      rw [hrows] at hr
      rcases List.mem_map.mp hr with ⟨r', hr', rfl⟩
      have hr'' := (List.mem_insertionSort _ ).mp hr'
      rcases List.mem_map.mp hr'' with ⟨r0, hr0, rfl⟩
      have hr0mem : r0 ∈ df.rows := (List.mem_filter.mp hr0).1
      rw [dropScore_setScore df.cols r0 _ hs (hwf r0 hr0mem)]
      exact hr0mem

/-- Witness for C10 amended on the example dataset and the query
`"12"`. -/
theorem c10_amended_witness :
    (smart_search exView "12" = .ok
      ⟨exView.cols,
       [[.vInt 12, .vStr "Research Paradigm", .vStr "RP", .vStr "A basic belief system"],
        [.vInt 7, .vStr "Sampling Frame", .vStr "SF", .vStr "see page 12 note"]]⟩)
    ∧ (⟨exView.cols,
       [[.vInt 12, .vStr "Research Paradigm", .vStr "RP", .vStr "A basic belief system"],
        [.vInt 7, .vStr "Sampling Frame", .vStr "SF", .vStr "see page 12 note"]]⟩ : DataFrame).cols
        = exView.cols
    ∧ [Value.vInt 12, Value.vStr "Research Paradigm", Value.vStr "RP",
        Value.vStr "A basic belief system"] ∈ exView.rows :=
  ⟨rfl,
   (c10_frame_effect_amended exView "12" _ (by decide) (by decide) rfl).1,
   (c10_frame_effect_amended exView "12" _ (by decide) (by decide) rfl).2
     [Value.vInt 12, Value.vStr "Research Paradigm", Value.vStr "RP",
      Value.vStr "A basic belief system"] (by decide)⟩

end Explorer

namespace Explorer

/-! ### C3 amended -/

/-- A purely-literal pattern matches a prefix exactly when the query is
that prefix. -/
theorem matchHere_lit (qs : List Char) : ∀ hay : List Char,
    matchHere (qs.map PatChar.lit) hay = prefixOfB qs hay := by
  induction qs with
  | nil => intro hay; rfl
  | cons q qs' ih =>
    intro hay
    cases hay with
    | nil => rfl
    | cons c cs =>
      show ((q == c) && matchHere (qs'.map PatChar.lit) cs) = ((q == c) && prefixOfB qs' cs)
      rw [ih cs]

/-- A purely-literal pattern searches exactly like substring
containment. -/
theorem reSearch_lit (qs : List Char) : ∀ hay : List Char,
    reSearch (qs.map PatChar.lit) hay = substrB qs hay := by
  intro hay
  induction hay with
  | nil => show matchHere _ [] = prefixOfB qs []; exact matchHere_lit qs []
  | cons c cs ih =>
    show (matchHere (qs.map PatChar.lit) (c :: cs) || reSearch (qs.map PatChar.lit) cs)
      = (prefixOfB qs (c :: cs) || substrB qs cs)
    rw [matchHere_lit, ih]

/-- A metacharacter-free, dot-free query compiles to the all-literal
pattern. -/
theorem compilePat_lit (qs : List Char)
    (h : ∀ c ∈ qs, metaChars.contains c = false ∧ c ≠ '.') :
    compilePat? qs = some (qs.map PatChar.lit) := by
  unfold compilePat?
  rw [if_neg]
  · congr 1
    exact List.map_congr_left (fun c hc => by rw [if_neg (h c hc).2])
  · intro hany
    rcases List.any_eq_true.mp hany with ⟨c, hc, hmc⟩
    exact absurd hmc (by rw [(h c hc).1]; exact fun hcon => Bool.noConfusion hcon)

/-- C3 amended: every row a successful non-empty-query `smart_search`
returns matched the lowercased query — as a Python regular expression —
in the lowercase string form of at least one of its column values, and
no non-matching row appears (ranking never resurrects a non-match); for
queries free of regex metacharacters (including `.`), the match is
exactly the substring containment the claim states.  (The counterexample
shows a query containing `.` breaks the pure-substring reading.) -/
theorem c3_contains_soundness_amended (df : DataFrame) (q : String) (out : DataFrame)
    (hq : (lowerStr q).data ≠ [])
    (hs : "_score" ∉ df.cols)
    (hwf : ∀ r ∈ df.rows, r.length = df.cols.length)
    (hok : smart_search df q = .ok out) :
    ∀ r ∈ out.rows,
      (∃ pat, compilePat? (lowerStr q).data = some pat ∧ rowContains pat r = true)
      ∧ ((∀ c ∈ (lowerStr q).data, metaChars.contains c = false ∧ c ≠ '.') →
          specContainsRow q r = true) := by
  have main : ∀ r ∈ out.rows, ∃ pat,
      compilePat? (lowerStr q).data = some pat ∧ rowContains pat r = true := by
    rcases smart_search_ok_elim df q out hok with ⟨rfl, hcase⟩ | ⟨pat, _, heq, _⟩ |
      ⟨pat, hpat, _, _, _, hrows⟩
    · rcases hcase with hcase | hcase
      · exact absurd hcase hq
      · rw [hcase]
        exact fun r hr => absurd hr (List.not_mem_nil r)
    · rw [heq]
      exact fun r hr => absurd hr (List.not_mem_nil r)
    · intro r hr
      rw [hrows] at hr
      rcases List.mem_map.mp hr with ⟨r', hr', rfl⟩
      have hr'' := (List.mem_insertionSort _ ).mp hr'
      rcases List.mem_map.mp hr'' with ⟨r0, hr0, rfl⟩
      have hr0mem : r0 ∈ df.rows := (List.mem_filter.mp hr0).1
      rw [dropScore_setScore df.cols r0 _ hs (hwf r0 hr0mem)]
      exact ⟨pat, hpat, (List.mem_filter.mp hr0).2⟩
  intro r hr
  refine ⟨main r hr, ?_⟩
  intro hlit
  rcases main r hr with ⟨pat, hpat, hcont⟩
  rw [compilePat_lit (lowerStr q).data hlit] at hpat
  have hpat' : pat = (lowerStr q).data.map PatChar.lit := (Option.some.inj hpat).symm
  subst hpat'
  unfold rowContains at hcont
  unfold specContainsRow
  rcases List.any_eq_true.mp hcont with ⟨v, hv, hre⟩
  refine List.any_eq_true.mpr ⟨v, hv, ?_⟩
  rw [← reSearch_lit]
  exact hre

/-- Witness for C3 amended: on the example dataset with query `"12"`
(no metacharacters), the returned contains-only row matched the query
and contains `"12"` as a substring of some column's string form. -/
theorem c3_amended_witness :
    (∃ pat, compilePat? (lowerStr "12").data = some pat
      ∧ rowContains pat [Value.vInt 7, Value.vStr "Sampling Frame", Value.vStr "SF",
          Value.vStr "see page 12 note"] = true)
    ∧ specContainsRow "12" [Value.vInt 7, Value.vStr "Sampling Frame", Value.vStr "SF",
        Value.vStr "see page 12 note"] = true :=
  have h := c3_contains_soundness_amended exView "12"
    ⟨exView.cols,
     [[Value.vInt 12, Value.vStr "Research Paradigm", Value.vStr "RP",
       Value.vStr "A basic belief system"],
      [Value.vInt 7, Value.vStr "Sampling Frame", Value.vStr "SF",
       Value.vStr "see page 12 note"]]⟩ (by decide) (by decide) (by decide) rfl
    [Value.vInt 7, Value.vStr "Sampling Frame", Value.vStr "SF",
     Value.vStr "see page 12 note"] (by decide)
  ⟨h.1, h.2 (by decide)⟩

end Explorer

namespace Explorer

/-! ### C4: order of the ranked output -/

/-- Totality of the code-point comparison. -/
theorem charsLe_total : ∀ as bs : List Char, charsLe as bs = true ∨ charsLe bs as = true := by
  intro as
  induction as with
  | nil => intro bs; exact Or.inl rfl
  | cons a as' ih =>
    intro bs
    cases bs with
    | nil => exact Or.inr rfl
    | cons b bs' =>
      by_cases hab : a = b
      · subst hab
        show (if a = a then charsLe as' bs' else _) = true ∨ (if a = a then charsLe bs' as' else _) = true
        rw [if_pos rfl, if_pos rfl]
        exact ih bs'
      · have hba : b ≠ a := fun h => hab h.symm
        show (if a = b then _ else decide (a.toNat < b.toNat)) = true
          ∨ (if b = a then _ else decide (b.toNat < a.toNat)) = true
        rw [if_neg hab, if_neg hba]
        have hne : a.toNat ≠ b.toNat := fun h => hab (char_eq_of_toNat_eq h)
        simp only [decide_eq_true_eq]
        omega

/-- Transitivity of the code-point comparison. -/
theorem charsLe_trans : ∀ as bs cs : List Char,
    charsLe as bs = true → charsLe bs cs = true → charsLe as cs = true := by
  intro as
  induction as with
  | nil => intro bs cs _ _; rfl
  | cons a as' ih =>
    intro bs cs h1 h2
    cases bs with
    | nil => exact Bool.noConfusion h1
    | cons b bs' =>
      cases cs with
      | nil => exact Bool.noConfusion h2
      | cons c cs' =>
        by_cases hab : a = b <;> by_cases hbc : b = c
        · subst hab; subst hbc
          rw [show charsLe (a :: as') (a :: cs') = charsLe as' cs' from by
            show (if a = a then _ else _) = _; rw [if_pos rfl]]
          rw [show charsLe (a :: as') (a :: bs') = charsLe as' bs' from by
            show (if a = a then _ else _) = _; rw [if_pos rfl]] at h1
          rw [show charsLe (a :: bs') (a :: cs') = charsLe bs' cs' from by
            show (if a = a then _ else _) = _; rw [if_pos rfl]] at h2
          exact ih bs' cs' h1 h2
        · subst hab
          rw [show charsLe (a :: bs') (c :: cs') = decide (a.toNat < c.toNat) from by
            show (if a = c then _ else _) = _; rw [if_neg hbc]] at h2
          rw [show charsLe (a :: as') (c :: cs') = decide (a.toNat < c.toNat) from by
            show (if a = c then _ else _) = _; rw [if_neg hbc]]
          exact h2
        · subst hbc
          rw [show charsLe (a :: as') (b :: bs') = decide (a.toNat < b.toNat) from by
            show (if a = b then _ else _) = _; rw [if_neg hab]] at h1
          rw [show charsLe (a :: as') (b :: cs') = decide (a.toNat < b.toNat) from by
            show (if a = b then _ else _) = _; rw [if_neg hab]]
          exact h1
        · rw [show charsLe (a :: as') (b :: bs') = decide (a.toNat < b.toNat) from by
            show (if a = b then _ else _) = _; rw [if_neg hab]] at h1
          rw [show charsLe (b :: bs') (c :: cs') = decide (b.toNat < c.toNat) from by
            show (if b = c then _ else _) = _; rw [if_neg hbc]] at h2
          simp only [decide_eq_true_eq] at h1 h2
          have hac : a ≠ c := by
            intro h
            subst h
            omega
          rw [show charsLe (a :: as') (c :: cs') = decide (a.toNat < c.toNat) from by
            show (if a = c then _ else _) = _; rw [if_neg hac]]
          simp only [decide_eq_true_eq]
          omega

/-- Totality of the pandas sort-key comparison. -/
theorem valueLe_total : ∀ a b : Value, valueLe a b = true ∨ valueLe b a = true := by
  intro a b
  cases a <;> cases b <;> simp only [valueLe]
  case vInt.vInt m n => simp only [decide_eq_true_eq]; omega
  case vStr.vStr s t => exact charsLe_total s.data t.data
  all_goals simp

/-- Transitivity of the pandas sort-key comparison. -/
theorem valueLe_trans : ∀ a b c : Value,
    valueLe a b = true → valueLe b c = true → valueLe a c = true := by
  intro a b c h1 h2
  cases a <;> cases b <;> cases c <;>
    simp only [valueLe] at h1 h2 ⊢ <;>
    first
      | rfl
      | exact Bool.noConfusion h1
      | exact Bool.noConfusion h2
      | (simp only [decide_eq_true_eq] at h1 h2 ⊢; omega)
      | exact charsLe_trans _ _ _ h1 h2

/-- The score cell of a freshly scored well-formed row holds its score. -/
theorem scoreCellInt_setScore (cols : List String) (r : Row) (s : Int)
    (hs : "_score" ∉ cols) (hlen : r.length = cols.length) :
    scoreCellInt cols (setScore cols r s) = s := by
  have hcont : cols.contains "_score" = false := by
    cases h : cols.contains "_score" with
    | false => rfl
    | true => exact absurd (List.mem_of_elem_eq_true h) hs
  unfold setScore scoreCellInt
  rw [hcont]
  simp only [Bool.false_eq_true, if_false]
  rw [scoreIdx_of_not_mem cols hs, ← hlen,
    List.getD_append_right r [Value.vInt s] Value.vNull r.length (le_refl _)]
  simp

/-- Scoring a well-formed row does not disturb any original column's
cell (when the frame had no `_score` column and the column read is not
`_score` itself). -/
theorem getVal_setScore (cols : List String) (r : Row) (s : Int) (c : String)
    (hs : "_score" ∉ cols) (hlen : r.length = cols.length) (hc : c ≠ "_score") :
    getVal (withScoreCols cols) (setScore cols r s) c = getVal cols r c := by
  have hcont : cols.contains "_score" = false := by
    cases h : cols.contains "_score" with
    | false => rfl
    | true => exact absurd (List.mem_of_elem_eq_true h) hs
  unfold setScore withScoreCols
  rw [hcont]
  simp only [Bool.false_eq_true, if_false]
  unfold getVal
  rw [List.findIdx?_append]
  cases hfi : cols.findIdx? (· == c) with
  | some i =>
    simp only [Option.or_some]
    have hi : i < cols.length := (List.findIdx?_eq_some_iff_findIdx_eq.mp hfi).1
    rw [List.getD_append r [Value.vInt s] Value.vNull i (hlen ▸ hi)]
  | none =>
    have hsc : ("_score" == c) = false := beq_eq_false_iff_ne.mpr (fun h => hc h.symm)
    rw [List.findIdx?_cons, hsc]
    simp

/-- The compared score-and-Number key of two freshly scored rows, read
off the augmented rows, is the recomputed key of the plain rows. -/
theorem leScored_setScore (cols : List String) (r1 r2 : Row) (k1 k2 : Int)
    (hs : "_score" ∉ cols) (hlen1 : r1.length = cols.length) (hlen2 : r2.length = cols.length) :
    leScored cols (setScore cols r1 k1) (setScore cols r2 k2)
      = (decide (k1 > k2) || (decide (k1 = k2) &&
          (match colNUM cols with
           | some c => valueLe (getVal cols r1 c) (getVal cols r2 c)
           | none => true))) := by
  unfold leScored
  rw [scoreCellInt_setScore cols r1 k1 hs hlen1, scoreCellInt_setScore cols r2 k2 hs hlen2]
  cases hcn : colNUM cols with
  | none => rfl
  | some c =>
    have hc : c = "Element No" := by
      unfold colNUM at hcn
      by_cases hmem : "Element No" ∈ cols
      · rw [if_pos hmem] at hcn
        exact (Option.some.inj hcn).symm
      · rw [if_neg hmem] at hcn
        exact Option.noConfusion hcn
    have hcne : c ≠ "_score" := by rw [hc]; decide
    dsimp only
    rw [getVal_setScore cols r1 k1 c hs hlen1 hcne, getVal_setScore cols r2 k2 c hs hlen2 hcne]

end Explorer

namespace Explorer

/-- C4: the claim fails as stated.  It quantifies over every query, but
for the empty query `smart_search` returns its input unchanged (lines
91-92) without sorting, even when the rows carry unequal scores: here
the second row's empty Symbol cell is an exact lowercased Symbol match
for the empty query (score 80) while the first row scores 0, so the
output is not sorted by score descending. -/
theorem c4_empty_query_not_score_sorted :
    smart_search exEmptyQ "" = .ok exEmptyQ
    ∧ scoreRow exEmptyQ (lowerStr "") [Value.vStr "Alpha", Value.vStr "x"] = 0
    ∧ scoreRow exEmptyQ (lowerStr "") [Value.vStr "Beta", Value.vStr ""] = 80
    ∧ ¬ List.Pairwise (fun r1 r2 =>
          scoreRow exEmptyQ (lowerStr "") r1 ≥ scoreRow exEmptyQ (lowerStr "") r2)
        exEmptyQ.rows :=
  ⟨rfl, by decide, by decide, by decide⟩

/-- C4 (amended): the rows a successful non-empty-query `smart_search`
returns are sorted by recomputed relevance score descending, ties broken
by the Number cell ascending when the Number role exists, and they are a
permutation of the surviving (contains-matching) rows.  The original
claim's further promise that without the Number role equal-score rows
keep their original input order is not made: line 123 is then a
single-key `sort_values` with pandas' default unstable quicksort, which
does not guarantee input order within equal scores.  (The score is
recomputed from each returned row by `scoreRow`, not read from the
internal `_score` column, which the output no longer carries.) -/
theorem c4_ranked_output_order_amended (df : DataFrame) (q : String) (out : DataFrame)
    (hq : (lowerStr q).data ≠ [])
    (hs : "_score" ∉ df.cols)
    (hwf : ∀ r ∈ df.rows, r.length = df.cols.length)
    (hok : smart_search df q = .ok out) :
    List.Pairwise (fun r1 r2 =>
      scoreRow df (lowerStr q) r1 > scoreRow df (lowerStr q) r2
      ∨ (scoreRow df (lowerStr q) r1 = scoreRow df (lowerStr q) r2
         ∧ ∀ c, colNUM df.cols = some c →
             valueLe (getVal df.cols r1 c) (getVal df.cols r2 c) = true)) out.rows
    ∧ out.rows.Perm (survivors df q) := by
  rcases smart_search_ok_elim df q out hok with ⟨rfl, hcase⟩ | ⟨pat, hpat, heq, hempty⟩ |
    ⟨pat, hpat, _, _, _, hrows⟩
  · rcases hcase with hcase | hcase
    · exact absurd hcase hq
    · constructor
      · rw [hcase]
        exact List.Pairwise.nil
      · cases hc : compilePat? (lowerStr q).data with
        | some p => simp [survivors, hc, hcase]
        | none => simp [survivors, hc, hcase]
  · constructor
    · rw [heq]
      exact List.Pairwise.nil
    · rw [heq]
      simp [survivors, hpat, hempty]
  · have hFwf : ∀ r ∈ df.rows.filter (rowContains pat), r.length = df.cols.length :=
      fun r hr => hwf r (List.mem_filter.mp hr).1
    have hcompat : ∀ a ∈ (df.rows.filter (rowContains pat)).map
        (fun r => setScore df.cols r (scoreRow df (lowerStr q) r)),
        ∀ b ∈ (df.rows.filter (rowContains pat)).map
        (fun r => setScore df.cols r (scoreRow df (lowerStr q) r)),
        ((fun a b => leScored df.cols a b = true) a b ↔
          (fun r1 r2 => (decide (scoreRow df (lowerStr q) r1 > scoreRow df (lowerStr q) r2)
            || (decide (scoreRow df (lowerStr q) r1 = scoreRow df (lowerStr q) r2) &&
              (match colNUM df.cols with
               | some c => valueLe (getVal df.cols r1 c) (getVal df.cols r2 c)
               | none => true))) = true)
            (dropScoreRow df.cols a) (dropScoreRow df.cols b)) := by
      intro a ha b hb
      rcases List.mem_map.mp ha with ⟨r1, hr1, rfl⟩
      rcases List.mem_map.mp hb with ⟨r2, hr2, rfl⟩
      dsimp only
      rw [leScored_setScore df.cols r1 r2 _ _ hs (hFwf r1 hr1) (hFwf r2 hr2)]
      rw [dropScore_setScore df.cols r1 _ hs (hFwf r1 hr1),
        dropScore_setScore df.cols r2 _ hs (hFwf r2 hr2)]
    have key : out.rows = List.insertionSort
        (fun r1 r2 => (decide (scoreRow df (lowerStr q) r1 > scoreRow df (lowerStr q) r2)
          || (decide (scoreRow df (lowerStr q) r1 = scoreRow df (lowerStr q) r2) &&
            (match colNUM df.cols with
             | some c => valueLe (getVal df.cols r1 c) (getVal df.cols r2 c)
             | none => true))) = true)
        (df.rows.filter (rowContains pat)) := by
      rw [hrows]
      rw [List.map_insertionSort (fun a b => leScored df.cols a b = true)
        (fun r1 r2 => (decide (scoreRow df (lowerStr q) r1 > scoreRow df (lowerStr q) r2)
          || (decide (scoreRow df (lowerStr q) r1 = scoreRow df (lowerStr q) r2) &&
            (match colNUM df.cols with
             | some c => valueLe (getVal df.cols r1 c) (getVal df.cols r2 c)
             | none => true))) = true)
        (dropScoreRow df.cols) _ hcompat]
      have hmaps : List.map (dropScoreRow df.cols)
          (List.map (fun r => setScore df.cols r (scoreRow df (lowerStr q) r))
            (df.rows.filter (rowContains pat)))
          = df.rows.filter (rowContains pat) := by
        rw [List.map_map]
        have hpt : ∀ r ∈ df.rows.filter (rowContains pat),
            (dropScoreRow df.cols ∘ fun r => setScore df.cols r (scoreRow df (lowerStr q) r)) r
              = id r := by
          intro r hr
          show dropScoreRow df.cols (setScore df.cols r (scoreRow df (lowerStr q) r)) = r
          exact dropScore_setScore df.cols r _ hs (hFwf r hr)
        rw [List.map_congr_left hpt, List.map_id]
      rw [hmaps]
    have htot : IsTotal Row
        (fun r1 r2 => (decide (scoreRow df (lowerStr q) r1 > scoreRow df (lowerStr q) r2)
          || (decide (scoreRow df (lowerStr q) r1 = scoreRow df (lowerStr q) r2) &&
            (match colNUM df.cols with
             | some c => valueLe (getVal df.cols r1 c) (getVal df.cols r2 c)
             | none => true))) = true) := by
      constructor
      intro a b
      simp only [Bool.or_eq_true, Bool.and_eq_true, decide_eq_true_eq]
      rcases lt_trichotomy (scoreRow df (lowerStr q) a) (scoreRow df (lowerStr q) b) with h | h | h
      · exact Or.inr (Or.inl h)
      · cases hcn : colNUM df.cols with
        | none =>
          left
          right
          exact ⟨h, rfl⟩
        | some c =>
          rcases valueLe_total (getVal df.cols a c) (getVal df.cols b c) with hv | hv
          · exact Or.inl (Or.inr ⟨h, hv⟩)
          · exact Or.inr (Or.inr ⟨h.symm, hv⟩)
      · exact Or.inl (Or.inl h)
    have htrans : IsTrans Row
        (fun r1 r2 => (decide (scoreRow df (lowerStr q) r1 > scoreRow df (lowerStr q) r2)
          || (decide (scoreRow df (lowerStr q) r1 = scoreRow df (lowerStr q) r2) &&
            (match colNUM df.cols with
             | some c => valueLe (getVal df.cols r1 c) (getVal df.cols r2 c)
             | none => true))) = true) := by
      constructor
      intro a b c hab hbc
      simp only [Bool.or_eq_true, Bool.and_eq_true, decide_eq_true_eq] at hab hbc ⊢
      rcases hab with hab | ⟨hab, hab'⟩
      · rcases hbc with hbc | ⟨hbc, _⟩
        · exact Or.inl (by omega)
        · exact Or.inl (by omega)
      · rcases hbc with hbc | ⟨hbc, hbc'⟩
        · exact Or.inl (by omega)
        · refine Or.inr ⟨by omega, ?_⟩
          cases hcn : colNUM df.cols with
          | none => rfl
          | some c0 =>
            rw [hcn] at hab' hbc'
            exact valueLe_trans _ _ _ hab' hbc'
    constructor
    · have hsorted := @List.sorted_insertionSort Row _ _ htot htrans
        (df.rows.filter (rowContains pat))
      rw [key]
      refine List.Pairwise.imp ?_ hsorted
      intro r1 r2 h
      simp only [Bool.or_eq_true, Bool.and_eq_true, decide_eq_true_eq] at h
      rcases h with h | ⟨heq2, hm⟩
      · exact Or.inl h
      · refine Or.inr ⟨heq2, ?_⟩
        intro c hc
        rw [hc] at hm
        exact hm
    · rw [key]
      have hsurv : survivors df q = df.rows.filter (rowContains pat) := by
        unfold survivors
        rw [hpat]
      rw [hsurv]
      exact List.perm_insertionSort _ _

end Explorer

namespace Explorer

/-- Witness for C4's amended theorem on the example dataset with query
`"12"`: the returned rows (Number 12 first, scored 100, then the
contains-only Number 7 row) are score-sorted with the Number tie-break
and are a permutation of the two survivors. -/
theorem c4_amended_witness :
    List.Pairwise (fun r1 r2 =>
      scoreRow exView (lowerStr "12") r1 > scoreRow exView (lowerStr "12") r2
      ∨ (scoreRow exView (lowerStr "12") r1 = scoreRow exView (lowerStr "12") r2
         ∧ ∀ c, colNUM exView.cols = some c →
             valueLe (getVal exView.cols r1 c) (getVal exView.cols r2 c) = true))
      (⟨exView.cols,
        [[Value.vInt 12, Value.vStr "Research Paradigm", Value.vStr "RP",
          Value.vStr "A basic belief system"],
         [Value.vInt 7, Value.vStr "Sampling Frame", Value.vStr "SF",
          Value.vStr "see page 12 note"]]⟩ : DataFrame).rows
    ∧ (⟨exView.cols,
        [[Value.vInt 12, Value.vStr "Research Paradigm", Value.vStr "RP",
          Value.vStr "A basic belief system"],
         [Value.vInt 7, Value.vStr "Sampling Frame", Value.vStr "SF",
          Value.vStr "see page 12 note"]]⟩ : DataFrame).rows.Perm
        (survivors exView "12") :=
  c4_ranked_output_order_amended exView "12" _ (by decide) (by decide) (by decide) rfl

end Explorer

namespace Explorer

/-! ### C6: decimal rendering parses back -/

/-- Code points of decimal digit characters. -/
theorem digitChar_toNat : ∀ n < 10, (digitChar n).toNat = 48 + n := by decide

/-- Decimal digit characters are digits. -/
theorem isDigitB_digitChar : ∀ n < 10, isDigitB (digitChar n) = true := by decide

/-- All characters `natToChars` produces are digits. -/
theorem natToChars_all_digits : ∀ fuel n, n < fuel → (natToChars fuel n).all isDigitB = true := by
  intro fuel
  induction fuel with
  | zero => intro n hn; omega
  | succ fuel ih =>
    intro n hn
    unfold natToChars
    by_cases h10 : n < 10
    · rw [if_pos h10]
      simp [isDigitB_digitChar n h10]
    · rw [if_neg h10]
      rw [List.all_append]
      have hdiv : n / 10 < fuel := by
        have h1 : n / 10 < n := Nat.div_lt_self (by omega) (by omega)
        omega
      rw [ih (n / 10) hdiv]
      simp [isDigitB_digitChar (n % 10) (Nat.mod_lt n (by omega))]

/-- `natToChars` never produces the empty list (with sufficient fuel). -/
theorem natToChars_ne_nil : ∀ fuel n, n < fuel → natToChars fuel n ≠ [] := by
  intro fuel
  induction fuel with
  | zero => intro n hn; omega
  | succ fuel ih =>
    intro n hn
    unfold natToChars
    by_cases h10 : n < 10
    · rw [if_pos h10]
      exact List.cons_ne_nil _ _
    · rw [if_neg h10]
      simp

/-- The digits `natToChars` produces evaluate back to the number. -/
theorem valOfDigits_natToChars : ∀ fuel n, n < fuel → valOfDigits (natToChars fuel n) = n := by
  intro fuel
  induction fuel with
  | zero => intro n hn; omega
  | succ fuel ih =>
    intro n hn
    unfold natToChars
    by_cases h10 : n < 10
    · rw [if_pos h10]
      unfold valOfDigits
      simp only [List.foldl_cons, List.foldl_nil]
      rw [digitChar_toNat n h10]
      omega
    · rw [if_neg h10]
      unfold valOfDigits
      rw [List.foldl_append]
      have hdiv : n / 10 < fuel := by
        have h1 : n / 10 < n := Nat.div_lt_self (by omega) (by omega)
        omega
      have hih := ih (n / 10) hdiv
      unfold valOfDigits at hih
      rw [hih]
      simp only [List.foldl_cons, List.foldl_nil]
      rw [digitChar_toNat (n % 10) (Nat.mod_lt n (by omega))]
      omega

/-- The digits `natToChars` produces parse back to the number. -/
theorem digitsVal?_natToChars (n : Nat) : digitsVal? (natToChars (n + 1) n) = some n := by
  unfold digitsVal?
  rw [if_pos ⟨natToChars_ne_nil (n + 1) n (by omega), natToChars_all_digits (n + 1) n (by omega)⟩]
  rw [valOfDigits_natToChars (n + 1) n (by omega)]

/-- Digits are not whitespace. -/
theorem isPySpace_of_digit (c : Char) (h : isDigitB c = true) : isPySpace c = false := by
  unfold isDigitB at h
  unfold isPySpace
  simp only [Bool.and_eq_true, decide_eq_true_eq] at h
  simp only [Bool.or_eq_false_iff, beq_eq_false_iff_ne]
  omega

/-- Trimming is the identity on whitespace-free lists. -/
theorem trimChars_eq_self (l : List Char) (h : ∀ c ∈ l, isPySpace c = false) :
    trimChars l = l := by
  unfold trimChars
  have hdrop : ∀ (l' : List Char), (∀ c ∈ l', isPySpace c = false) →
      l'.dropWhile isPySpace = l' := by
    intro l' h'
    cases l' with
    | nil => rfl
    | cons x xs =>
      rw [List.dropWhile_cons, h' x (List.mem_cons_self x xs)]
      simp
  rw [hdrop l h, hdrop l.reverse (fun c hc => h c (List.mem_reverse.mp hc)), List.reverse_reverse]

/-- The decimal rendering of any integer parses back to it, exactly as
`int(str(m))` returns `m` in Python. -/
theorem pyInt?_intToStr (m : Int) : pyInt? (intToStr m) = some m := by
  by_cases hm : m < 0
  · unfold intToStr
    rw [if_pos hm]
    unfold pyInt?
    have hdigits : ∀ c ∈ natToChars (m.natAbs + 1) m.natAbs, isDigitB c = true :=
      fun c hc => List.all_eq_true.mp (natToChars_all_digits _ _ (by omega)) c hc
    have htrim : trimChars ('-' :: natToChars (m.natAbs + 1) m.natAbs)
        = '-' :: natToChars (m.natAbs + 1) m.natAbs := by
      refine trimChars_eq_self _ ?_
      intro c hc
      rcases List.mem_cons.mp hc with rfl | hc
      · decide
      · exact isPySpace_of_digit c (hdigits c hc)
    rw [show (⟨'-' :: natToChars (m.natAbs + 1) m.natAbs⟩ : String).data
      = '-' :: natToChars (m.natAbs + 1) m.natAbs from rfl]
    rw [htrim]
    rw [if_pos (show ('-' :: natToChars (m.natAbs + 1) m.natAbs).take 1 = ['-'] from rfl)]
    rw [show ('-' :: natToChars (m.natAbs + 1) m.natAbs).drop 1
      = natToChars (m.natAbs + 1) m.natAbs from rfl]
    rw [digitsVal?_natToChars]
    exact congrArg some (show -((m.natAbs : Nat) : Int) = m by omega)
  · unfold intToStr
    rw [if_neg hm]
    unfold pyInt?
    have hdigits : ∀ c ∈ natToChars (m.natAbs + 1) m.natAbs, isDigitB c = true :=
      fun c hc => List.all_eq_true.mp (natToChars_all_digits _ _ (by omega)) c hc
    have htrim : trimChars (natToChars (m.natAbs + 1) m.natAbs)
        = natToChars (m.natAbs + 1) m.natAbs :=
      trimChars_eq_self _ (fun c hc => isPySpace_of_digit c (hdigits c hc))
    rw [show (⟨natToChars (m.natAbs + 1) m.natAbs⟩ : String).data
      = natToChars (m.natAbs + 1) m.natAbs from rfl]
    rw [htrim]
    clear htrim
    cases hD : natToChars (m.natAbs + 1) m.natAbs with
    | nil => exact absurd hD (natToChars_ne_nil _ _ (by omega))
    | cons d rest =>
      have hd : isDigitB d = true := by
        have := hdigits d (by rw [hD]; exact List.mem_cons_self d rest)
        exact this
      have hdt : 48 ≤ d.toNat ∧ d.toNat ≤ 57 := by
        unfold isDigitB at hd
        simp only [Bool.and_eq_true, decide_eq_true_eq] at hd
        exact hd
      have hne1 : ¬ ((d :: rest).take 1 = ['-']) := by
        intro hcon
        have hd' : d = '-' := (List.cons.inj hcon).1
        rw [hd'] at hdt
        revert hdt
        decide
      have hne2 : ¬ ((d :: rest).take 1 = ['+']) := by
        intro hcon
        have hd' : d = '+' := (List.cons.inj hcon).1
        rw [hd'] at hdt
        revert hdt
        decide
      rw [if_neg hne1, if_neg hne2, ← hD, digitsVal?_natToChars]
      exact congrArg some (show ((m.natAbs : Nat) : Int) = m by omega)

end Explorer

namespace Explorer

/-! ### C6: the query-string encoding round-trips -/

/-- Code points are below 0x110000. -/
theorem char_toNat_lt (c : Char) : c.toNat < 1114112 := by
  show c.val.toNat < 1114112
  rcases c.valid with h | ⟨_, h⟩ <;> omega

/-- UTF-8 encoding produces bytes. -/
theorem utf8Bytes_lt (c : Char) : ∀ b ∈ utf8Bytes c, b < 256 := by
  intro b hb
  have hx := char_toNat_lt c
  unfold utf8Bytes at hb
  split_ifs at hb with h1 h2 h3 <;>
    simp only [List.mem_cons, List.not_mem_nil, or_false] at hb
  · rw [hb]; omega
  · rcases hb with rfl | rfl <;> omega
  · rcases hb with rfl | rfl | rfl <;> omega
  · rcases hb with rfl | rfl | rfl | rfl <;> omega

/-- Decoding right after encoding one character recovers it together
with the remaining bytes. -/
theorem utf8DecodeChar_encode (c : Char) (rest : List Nat) :
    utf8DecodeChar (utf8Bytes c ++ rest) = some (c, rest) := by
  have hx := char_toNat_lt c
  unfold utf8Bytes
  split_ifs with h1 h2 h3
  · show utf8DecodeChar (c.toNat :: rest) = _
    simp only [utf8DecodeChar]
    rw [if_pos h1, Char.ofNat_toNat]
  · show utf8DecodeChar ((192 + c.toNat / 64) :: (128 + c.toNat % 64) :: rest) = _
    simp only [utf8DecodeChar]
    rw [if_neg (by omega), if_neg (by omega), if_pos (by omega)]
    rw [if_pos (by
      simp only [contOkB, List.getD_cons_zero, List.length_cons, Bool.and_eq_true,
        decide_eq_true_eq]
      omega)]
    simp only [List.getD_cons_zero, List.drop_succ_cons, List.drop_zero]
    rw [show (192 + c.toNat / 64 - 192) * 64 + (128 + c.toNat % 64 - 128) = c.toNat by omega,
      Char.ofNat_toNat]
  · show utf8DecodeChar ((224 + c.toNat / 4096) :: (128 + c.toNat / 64 % 64)
      :: (128 + c.toNat % 64) :: rest) = _
    simp only [utf8DecodeChar]
    rw [if_neg (by omega), if_neg (by omega), if_neg (by omega), if_pos (by omega)]
    rw [if_pos (by
      simp only [contOkB, List.getD_cons_zero, List.getD_cons_succ, List.length_cons,
        Bool.and_eq_true, decide_eq_true_eq]
      omega)]
    simp only [List.getD_cons_zero, List.getD_cons_succ, List.drop_succ_cons, List.drop_zero]
    rw [show (224 + c.toNat / 4096 - 224) * 4096 + (128 + c.toNat / 64 % 64 - 128) * 64
      + (128 + c.toNat % 64 - 128) = c.toNat by omega, Char.ofNat_toNat]
  · show utf8DecodeChar ((240 + c.toNat / 262144) :: (128 + c.toNat / 4096 % 64)
      :: (128 + c.toNat / 64 % 64) :: (128 + c.toNat % 64) :: rest) = _
    simp only [utf8DecodeChar]
    rw [if_neg (by omega), if_neg (by omega), if_neg (by omega), if_neg (by omega)]
    rw [if_pos (by
      simp only [contOkB, List.getD_cons_zero, List.getD_cons_succ, List.length_cons,
        Bool.and_eq_true, decide_eq_true_eq]
      omega)]
    simp only [List.getD_cons_zero, List.getD_cons_succ, List.drop_succ_cons, List.drop_zero]
    rw [show (240 + c.toNat / 262144 - 240) * 262144 + (128 + c.toNat / 4096 % 64 - 128) * 4096
      + (128 + c.toNat / 64 % 64 - 128) * 64 + (128 + c.toNat % 64 - 128) = c.toNat by omega,
      Char.ofNat_toNat]

/-- Every character encodes to at least one byte. -/
theorem utf8Bytes_ne_nil (c : Char) : utf8Bytes c ≠ [] := by
  unfold utf8Bytes
  split_ifs <;> simp

/-- The decode loop inverts the encoding given enough fuel. -/
theorem utf8DecodeLoop_flatMap (l : List Char) : ∀ fuel : Nat,
    (l.flatMap utf8Bytes).length ≤ fuel →
    utf8DecodeLoop fuel (l.flatMap utf8Bytes) = some l := by
  induction l with
  | nil =>
    intro fuel _
    cases fuel <;> rfl
  | cons c l' ih =>
    intro fuel hfuel
    rw [List.flatMap_cons] at hfuel ⊢
    cases hb : utf8Bytes c with
    | nil => exact absurd hb (utf8Bytes_ne_nil c)
    | cons b0 bs0 =>
      rw [hb] at hfuel
      rw [List.cons_append] at hfuel
      rw [List.cons_append]
      cases fuel with
      | zero =>
        exfalso
        simp only [List.length_cons] at hfuel
        omega
      | succ f =>
        show (match utf8DecodeChar (b0 :: (bs0 ++ l'.flatMap utf8Bytes)) with
          | some (c', rest) => (utf8DecodeLoop f rest).map (fun cs => c' :: cs)
          | none => none) = some (c :: l')
        have hchar : utf8DecodeChar (b0 :: (bs0 ++ l'.flatMap utf8Bytes))
            = some (c, l'.flatMap utf8Bytes) := by
          rw [← List.cons_append, ← hb]
          exact utf8DecodeChar_encode c _
        rw [hchar]
        show (utf8DecodeLoop f (l'.flatMap utf8Bytes)).map (fun cs => c :: cs) = some (c :: l')
        rw [ih f (by
          simp only [List.length_cons, List.length_append] at hfuel
          omega)]
        rfl

/-- Decoding a concatenation of character encodings recovers the
characters. -/
theorem utf8Decode_flatMap (l : List Char) :
    utf8Decode (l.flatMap utf8Bytes) = some l :=
  utf8DecodeLoop_flatMap l _ (le_refl _)

/-- Hexadecimal digits round-trip. -/
theorem hexVal?_hexDigit : ∀ n < 16, hexVal? (hexDigit n) = some n := by decide

end Explorer

namespace Explorer

/-- A percent-escape is three characters per byte. -/
theorem length_flatMap_pctEncByte (bs : List Nat) :
    (bs.flatMap pctEncByte).length = 3 * bs.length := by
  induction bs with
  | nil => rfl
  | cons b bs' ih =>
    rw [List.flatMap_cons, List.length_append, ih]
    show 3 + 3 * bs'.length = 3 * (bs'.length + 1)
    omega

/-- Reading tokens through a run of percent-escapes recovers the bytes
and hands the remaining characters to the rest of the loop. -/
theorem qsLoop_pct_run (bs : List Nat) (hbs : ∀ b ∈ bs, b < 256) (rest : List Char) :
    ∀ fuel : Nat, bs.length + rest.length ≤ fuel →
    qsLoop fuel (bs.flatMap pctEncByte ++ rest)
      = (qsLoop (fuel - bs.length) rest).map (fun t => bs ++ t) := by
  induction bs with
  | nil =>
    intro fuel _
    rw [List.flatMap_nil, List.nil_append]
    cases h : qsLoop fuel rest <;> simp [h]
  | cons b bs' ih =>
    intro fuel hfuel
    have hb : b < 256 := hbs b (List.mem_cons_self b bs')
    rw [List.flatMap_cons]
    show qsLoop fuel ((['%', hexDigit (b / 16), hexDigit (b % 16)]
      ++ bs'.flatMap pctEncByte) ++ rest) = _
    rw [List.append_assoc]
    cases fuel with
    | zero => simp only [List.length_cons] at hfuel; omega
    | succ f =>
      show (match qsStep ('%' :: hexDigit (b / 16) :: hexDigit (b % 16)
          :: (bs'.flatMap pctEncByte ++ rest)) with
        | some (b', rest') => (qsLoop f rest').map (fun xs => b' :: xs)
        | none => none) = _
      have hstep : qsStep ('%' :: hexDigit (b / 16) :: hexDigit (b % 16)
          :: (bs'.flatMap pctEncByte ++ rest))
          = some (b, bs'.flatMap pctEncByte ++ rest) := by
        simp only [qsStep, if_true]
        rw [show (hexDigit (b / 16) :: hexDigit (b % 16)
          :: (bs'.flatMap pctEncByte ++ rest)).getD 0 ' ' = hexDigit (b / 16) from rfl]
        rw [show (hexDigit (b / 16) :: hexDigit (b % 16)
          :: (bs'.flatMap pctEncByte ++ rest)).getD 1 ' ' = hexDigit (b % 16) from rfl]
        rw [hexVal?_hexDigit (b / 16) (by omega), hexVal?_hexDigit (b % 16) (by omega)]
        rw [if_pos (by
          simp only [Option.isSome_some, Bool.true_and, Bool.and_eq_true, decide_eq_true_eq,
            List.length_cons]
          omega)]
        rw [show (hexDigit (b / 16) :: hexDigit (b % 16)
          :: (bs'.flatMap pctEncByte ++ rest)).drop 2 = bs'.flatMap pctEncByte ++ rest from rfl]
        have : 16 * (some (b / 16)).getD 0 + (some (b % 16)).getD 0 = b := by
          simp only [Option.getD_some]
          omega
        rw [this]
      rw [hstep]
      show ((qsLoop f (bs'.flatMap pctEncByte ++ rest)).map (fun xs => b :: xs)) = _
      rw [ih (fun x hx => hbs x (List.mem_cons_of_mem b hx)) f (by
        have hf := hfuel
        simp only [List.length_cons] at hf
        omega)]
      simp only [List.length_cons]
      rw [show f + 1 - (bs'.length + 1) = f - bs'.length from by omega]
      cases qsLoop (f - bs'.length) rest <;> simp

end Explorer

namespace Explorer

/-- Safe characters are ASCII and are neither `%` nor `+`. -/
theorem quoteSafe_facts (c : Char) (h : quoteSafe c = true) :
    c.toNat < 128 ∧ c.toNat ≠ 37 ∧ c.toNat ≠ 43 := by
  unfold quoteSafe at h
  simp only [Bool.or_eq_true, Bool.and_eq_true, decide_eq_true_eq, beq_iff_eq] at h
  omega

/-- The decode loop inverts `quote_plus` given enough fuel. -/
theorem qsLoop_quotePlus (l : List Char) : ∀ fuel : Nat,
    (quotePlusChars l).length ≤ fuel →
    qsLoop fuel (quotePlusChars l) = some (l.flatMap utf8Bytes) := by
  induction l with
  | nil =>
    intro fuel _
    cases fuel <;> rfl
  | cons c l' ih =>
    intro fuel hfuel
    rw [show quotePlusChars (c :: l') = quoteChar c ++ quotePlusChars l' from rfl] at hfuel ⊢
    rw [List.flatMap_cons]
    by_cases hsafe : quoteSafe c = true
    · obtain ⟨hlt, hne37, hne43⟩ := quoteSafe_facts c hsafe
      rw [show quoteChar c = [c] from by unfold quoteChar; rw [if_pos hsafe]] at hfuel ⊢
      rw [List.cons_append, List.nil_append] at hfuel ⊢
      cases fuel with
      | zero => simp only [List.length_cons] at hfuel; omega
      | succ f =>
        show (match qsStep (c :: quotePlusChars l') with
          | some (b, rest') => (qsLoop f rest').map (fun bs => b :: bs)
          | none => none) = _
        have hstep : qsStep (c :: quotePlusChars l') = some (c.toNat, quotePlusChars l') := by
          simp only [qsStep]
          rw [if_neg (fun hcon => hne37 (by rw [hcon]; rfl)),
            if_neg (fun hcon => hne43 (by rw [hcon]; rfl))]
        rw [hstep]
        show (qsLoop f (quotePlusChars l')).map (fun bs => c.toNat :: bs) = _
        rw [ih f (by
          simp only [List.length_cons] at hfuel
          omega)]
        rw [show utf8Bytes c = [c.toNat] from by unfold utf8Bytes; rw [if_pos hlt]]
        rfl
    · by_cases hspace : c = ' '
      · subst hspace
        rw [show quoteChar ' ' = ['+'] from rfl] at hfuel ⊢
        rw [List.cons_append, List.nil_append] at hfuel ⊢
        cases fuel with
        | zero => simp only [List.length_cons] at hfuel; omega
        | succ f =>
          show (match qsStep ('+' :: quotePlusChars l') with
            | some (b, rest') => (qsLoop f rest').map (fun bs => b :: bs)
            | none => none) = _
          have hstep : qsStep ('+' :: quotePlusChars l') = some (32, quotePlusChars l') := by
            simp only [qsStep, if_true]
            rfl
          rw [hstep]
          show (qsLoop f (quotePlusChars l')).map (fun bs => (32 : Nat) :: bs) = _
          rw [ih f (by
            simp only [List.length_cons] at hfuel
            omega)]
          rw [show utf8Bytes ' ' = [32] from rfl]
          rfl
      · rw [show quoteChar c = (utf8Bytes c).flatMap pctEncByte from by
          unfold quoteChar
          rw [if_neg hsafe, if_neg hspace]] at hfuel ⊢
        have hlen := length_flatMap_pctEncByte (utf8Bytes c)
        rw [List.length_append] at hfuel
        rw [qsLoop_pct_run (utf8Bytes c) (utf8Bytes_lt c) (quotePlusChars l') fuel
          (by omega)]
        rw [ih (fuel - (utf8Bytes c).length) (by omega)]
        rfl

end Explorer

namespace Explorer

/-- `quote_plus` output decodes to exactly the UTF-8 bytes of the
original value. -/
theorem qsBytes?_quotePlus (l : List Char) :
    qsBytes? (quotePlusChars l) = some (l.flatMap utf8Bytes) :=
  qsLoop_quotePlus l _ (le_refl _)

/-- `unquote_plus` inverts `quote_plus`. -/
theorem unquotePlus_quotePlus (l : List Char) :
    unquotePlus? (quotePlusChars l) = some l := by
  unfold unquotePlus?
  rw [qsBytes?_quotePlus]
  show utf8Decode (l.flatMap utf8Bytes) = some l
  exact utf8Decode_flatMap l

/-- Parsing the `el` parameter of a produced share link recovers the
original row key exactly. -/
theorem parseElParam_share_link (val : String) :
    parseElParam (element_share_link val) = some val := by
  unfold parseElParam element_share_link
  rw [show (⟨'?' :: 'e' :: 'l' :: '=' :: quotePlusChars val.data⟩ : String).data
    = '?' :: 'e' :: 'l' :: '=' :: quotePlusChars val.data from rfl]
  rw [if_pos (show List.take 4 ('?' :: 'e' :: 'l' :: '=' :: quotePlusChars val.data)
    = ['?', 'e', 'l', '='] from rfl)]
  rw [show ('?' :: 'e' :: 'l' :: '=' :: quotePlusChars val.data).drop 4
    = quotePlusChars val.data from rfl]
  rw [unquotePlus_quotePlus]
  rfl

end Explorer

namespace Explorer

/-! ### C6: deep-link resolution facts -/

/-- A string cell anywhere makes the `astype("Int64")` cast raise. -/
theorem astypeInt64?_none_of_str (vs : List Value) (s : String)
    (h : Value.vStr s ∈ vs) : astypeInt64? vs = none := by
  induction vs with
  | nil => cases h
  | cons v vs' ih =>
    rcases List.mem_cons.mp h with rfl | h'
    · rfl
    · cases v with
      | vInt m =>
        show (astypeInt64? vs').map _ = none
        rw [ih h']
        rfl
      | vNull =>
        show (astypeInt64? vs').map _ = none
        rw [ih h']
        rfl
      | vStr t => rfl

/-- A successful `astype("Int64")` cast is the per-cell nullable-integer
reading. -/
theorem astypeInt64?_eq_map (vs : List Value) (l : List (Option Int))
    (h : astypeInt64? vs = some l) : l = vs.map valInt? := by
  induction vs generalizing l with
  | nil =>
    have : ([] : List (Option Int)) = l := Option.some.inj h
    rw [← this]
    rfl
  | cons v vs' ih =>
    cases v with
    | vInt m =>
      have h' : (astypeInt64? vs').map (fun t => some m :: t) = some l := h
      cases hgo : astypeInt64? vs' with
      | none => rw [hgo] at h'; exact Option.noConfusion h'
      | some l' =>
        rw [hgo] at h'
        have : some m :: l' = l := Option.some.inj h'
        rw [← this, List.map_cons, ih l' hgo]
        rfl
    | vNull =>
      have h' : (astypeInt64? vs').map (fun t => none :: t) = some l := h
      cases hgo : astypeInt64? vs' with
      | none => rw [hgo] at h'; exact Option.noConfusion h'
      | some l' =>
        rw [hgo] at h'
        have : (none :: l' : List (Option Int)) = l := Option.some.inj h'
        rw [← this, List.map_cons, ih l' hgo]
        rfl
    | vStr t => exact Option.noConfusion h

/-- Finding a hit in the zip of rows with their per-row values is
finding the row itself. -/
theorem find?_zip_map (l : List Row) (g : Row → Option Int) (n : Int) :
    ((l.zip (l.map g)).find? (fun p => p.2 == some n)).map (fun p => p.1)
      = l.find? (fun r' => g r' == some n) := by
  induction l with
  | nil => rfl
  | cons a l' ih =>
    rw [List.map_cons, List.zip_cons_cons]
    cases hp : (g a == some n) with
    | true =>
      rw [@List.find?_cons_of_pos _ (fun p : Row × Option Int => p.2 == some n) (a, g a)
        (l'.zip (l'.map g)) hp]
      rw [@List.find?_cons_of_pos _ (fun r' => g r' == some n) a l' hp]
      rfl
    | false =>
      rw [@List.find?_cons_of_neg _ (fun p : Row × Option Int => p.2 == some n) (a, g a)
        (l'.zip (l'.map g)) (by rw [show ((fun p : Row × Option Int => p.2 == some n) (a, g a))
          = (g a == some n) from rfl, hp]; exact fun hc => Bool.noConfusion hc)]
      rw [@List.find?_cons_of_neg _ (fun r' => g r' == some n) a l'
        (by rw [show ((fun r' => g r' == some n) a) = (g a == some n) from rfl, hp]
            exact fun hc => Bool.noConfusion hc)]
      exact ih

end Explorer

namespace Explorer

/-- C6 amended: for datasets whose Number column (when that role
exists) casts cleanly to nullable integers — no string cells, the case
the counterexample shows breaks resolution — following a row's share
link end to end resolves to a row bearing the same key: building the
link from key `K`, parsing its `el` parameter back (the URL encoding
round-trips exactly), and resolving it against the dataset yields a row
whose key is `K` (the first such row, so a duplicated key resolves to
its first bearer). -/
theorem c6_deep_link_round_trip_amended (df : DataFrame) (r : Row) (K : String)
    (hr : r ∈ df.rows) (hk : rowKey? df r = some K)
    (hnum : ∀ c, colNUM df.cols = some c → astypeInt64? (colVals df c) ≠ none) :
    ∃ rr, resolveLink df (element_share_link K) = some rr ∧ rowKey? df rr = some K := by
  unfold resolveLink
  rw [parseElParam_share_link, Option.some_bind]
  cases hcn : colNUM df.cols with
  | none =>
    simp only [rowKey?, hcn] at hk
    have hkey : pyStr (getVal df.cols r (colNAME df.cols)) = K := Option.some.inj hk
    have hex : (df.rows.find? (fun r' => pyStr (getVal df.cols r' (colNAME df.cols)) == K)).isSome
        = true :=
      List.find?_isSome.mpr ⟨r, hr, by rw [hkey]; exact beq_self_eq_true K⟩
    obtain ⟨r', hr'⟩ := Option.isSome_iff_exists.mp hex
    refine ⟨r', ?_, ?_⟩
    · simp only [resolveDeepEl, hcn]
      rw [hr']
    · simp only [rowKey?, hcn]
      have hbeq := List.find?_some hr'
      have heq : pyStr (getVal df.cols r' (colNAME df.cols)) = K := by
        exact eq_of_beq hbeq
      rw [heq]
  | some c =>
    have hastype := hnum c hcn
    cases hvals : astypeInt64? (colVals df c) with
    | none => exact absurd hvals hastype
    | some vals =>
      simp only [rowKey?, hcn] at hk
      cases hcell : getVal df.cols r c with
      | vNull => rw [hcell] at hk; exact Option.noConfusion hk
      | vStr s =>
        exfalso
        have hmem : Value.vStr s ∈ colVals df c := by
          rw [← hcell]
          exact List.mem_map_of_mem _ hr
        rw [astypeInt64?_none_of_str (colVals df c) s hmem] at hvals
        exact Option.noConfusion hvals
      | vInt m =>
        rw [hcell] at hk
        have hK : intToStr m = K := Option.some.inj hk
        have hparse : pyInt? K = some m := by rw [← hK]; exact pyInt?_intToStr m
        have hvals' : vals = df.rows.map (fun r' => valInt? (getVal df.cols r' c)) := by
          rw [astypeInt64?_eq_map (colVals df c) vals hvals]
          unfold colVals
          rw [List.map_map]
          rfl
        have hex : (df.rows.find? (fun r' => valInt? (getVal df.cols r' c) == some m)).isSome
            = true :=
          List.find?_isSome.mpr ⟨r, hr, by
            rw [hcell]
            exact beq_self_eq_true (some m)⟩
        obtain ⟨r0, hr0⟩ := Option.isSome_iff_exists.mp hex
        have hbeq0 := List.find?_some hr0
        have hg : valInt? (getVal df.cols r0 c) = some m := eq_of_beq hbeq0
        refine ⟨r0, ?_, ?_⟩
        · simp only [resolveDeepEl, hcn, hparse, hvals]
          rw [hvals', find?_zip_map, hr0]
        · simp only [rowKey?, hcn]
          cases hcell0 : getVal df.cols r0 c with
          | vInt m0 =>
            rw [hcell0] at hg
            have : m0 = m := Option.some.inj hg
            rw [this]
            show some (intToStr m) = some K
            rw [hK]
          | vStr t =>
            rw [hcell0] at hg
            exact Option.noConfusion hg
          | vNull =>
            rw [hcell0] at hg
            exact Option.noConfusion hg

/-- Witness for C6 amended: the Number-7 row of the example dataset
round-trips through its share link. -/
theorem c6_amended_witness :
    ∃ rr, resolveLink exView (element_share_link "7") = some rr
      ∧ rowKey? exView rr = some "7" :=
  c6_deep_link_round_trip_amended exView
    [Value.vInt 7, Value.vStr "Sampling Frame", Value.vStr "SF", Value.vStr "see page 12 note"]
    "7" (by decide) rfl
    (fun c hc => by
      injection hc with hc'
      subst hc'
      intro hcon
      exact Option.noConfusion hcon)

end Explorer
